import Mathlib

/-!
Verification of the prediction-market-movers ingestion/analytics engine.

This file shallowly embeds the SQL/Python components of the repository:

* the trade-volume accumulator `accumulate_trade_volume` (migration
  "Volume semantics alignment", the final `CREATE OR REPLACE` revision,
  which resets a rolling window from its own `first_trade_ts` and also
  feeds the permanent `volume_hourly` ledger);
* the alert cleanup script `purge_settlement_noise_alerts.sql`
  (settlement-noise pass followed by the mirror YES/NO pass, each
  archiving into `alerts_suppressed_archive` before deleting);
* the WebSocket `ConnectionManager` fallback state machine;
* the `arbitrage_opportunities` persistence constraint
  (`chk_valid_arbitrage`) and a spec-modelled arbitrage matcher;
* the `volume_averages` baseline view (trade-first daily totals with
  provider fallback) and a spec-modelled volume-spike detector.

Timestamps are modelled as integer epoch seconds, SQL `DECIMAL` values as
rationals, and nullable SQL columns as `Option`.
-/

namespace PMM

/-! ## Trade volume accumulator (migration "Volume semantics alignment") -/

/-- One row of the `trade_volumes` table for a fixed `(token_id, window_seconds)`
key: accumulated notional volume, trade count, and the first/last trade
timestamps of the current window. -/
structure WindowRow where
  volume_total : ℚ
  trade_count : ℕ
  first_trade_ts : ℤ
  last_trade_ts : ℤ
deriving DecidableEq

/-- One row of the permanent `volume_hourly` ledger for a fixed
`(token_id, bucket_ts)` key. -/
structure HourRow where
  volume_notional : ℚ
  trade_count : ℕ
deriving DecidableEq

/-- The mutable state touched by `accumulate_trade_volume`: the
`trade_volumes` table keyed by `(token_id, window_seconds)` and the
`volume_hourly` table keyed by `(token_id, bucket_ts)`.  A `none` entry is
an absent row. -/
structure VolumeState where
  trade_volumes : ℕ → ℤ → Option WindowRow
  volume_hourly : ℕ → ℤ → Option HourRow

/-- The four fixed rolling-window lengths (seconds) handled by the
accumulator: 5 min, 15 min, 1 h, 24 h. -/
def window_lengths : List ℤ := [300, 900, 3600, 86400]

/-- `DATE_TRUNC('hour', ts)` on epoch seconds. -/
def hour_bucket (ts : ℤ) : ℤ := 3600 * (ts / 3600)

/-- The `ON CONFLICT ... DO UPDATE` upsert of one rolling-window row: an
absent row is initialised to this trade; an existing row is reset to this
trade when `EXTRACT(EPOCH FROM (p_trade_ts - first_trade_ts)) >= w`, and
otherwise accumulates; `last_trade_ts` advances via `GREATEST`. -/
def upsert_trade_window (w : ℤ) (vol : ℚ) (ts : ℤ) : Option WindowRow → WindowRow
  | none => ⟨vol, 1, ts, ts⟩
  | some r =>
      if w ≤ ts - r.first_trade_ts then
        ⟨vol, 1, ts, max r.last_trade_ts ts⟩
      else
        ⟨r.volume_total + vol, r.trade_count + 1, r.first_trade_ts, max r.last_trade_ts ts⟩

/-- The `ON CONFLICT ... DO UPDATE` upsert of one `volume_hourly` row: it
only ever adds the trade's volume and a count of one. -/
def upsert_hourly (vol : ℚ) : Option HourRow → HourRow
  | none => ⟨vol, 1⟩
  | some r => ⟨r.volume_notional + vol, r.trade_count + 1⟩

/-- `accumulate_trade_volume(p_token_id, p_volume, p_trade_ts)`: a silent
no-op when `p_volume IS NULL OR p_volume <= 0`; otherwise upserts the four
rolling-window rows of the token and the hourly ledger row at
`DATE_TRUNC('hour', p_trade_ts)`. -/
def accumulate_trade_volume (st : VolumeState) (token_id : ℕ)
    (volume : Option ℚ) (trade_ts : ℤ) : VolumeState :=
  match volume with
  | none => st
  | some v =>
      if v ≤ 0 then st
      else
        { trade_volumes := fun tok w =>
            if tok = token_id ∧ w ∈ window_lengths then
              some (upsert_trade_window w v trade_ts (st.trade_volumes tok w))
            else st.trade_volumes tok w,
          volume_hourly := fun tok b =>
            if tok = token_id ∧ b = hour_bucket trade_ts then
              some (upsert_hourly v (st.volume_hourly tok b))
            else st.volume_hourly tok b }

/-- A sequence of accepted trade events `(volume, timestamp)` for one token,
replayed through `accumulate_trade_volume`. -/
def accumulate_list (st : VolumeState) (token_id : ℕ)
    (trades : List (ℚ × ℤ)) : VolumeState :=
  trades.foldl (fun s p => accumulate_trade_volume s token_id (some p.1) p.2) st

/-- A replay of arbitrary accumulator calls `(token, volume?, timestamp)`
starting from a given state. -/
def replay (st : VolumeState) (calls : List (ℕ × Option ℚ × ℤ)) : VolumeState :=
  calls.foldl (fun s c => accumulate_trade_volume s c.1 c.2.1 c.2.2) st

/-- The state with both tables empty. -/
def emptyVolumeState : VolumeState :=
  { trade_volumes := fun _ _ => none, volume_hourly := fun _ _ => none }

theorem accumulate_pos_def (st : VolumeState) (tok : ℕ) (v : ℚ) (ts : ℤ)
    (hv : 0 < v) :
    accumulate_trade_volume st tok (some v) ts =
      { trade_volumes := fun tok' w =>
          if tok' = tok ∧ w ∈ window_lengths then
            some (upsert_trade_window w v ts (st.trade_volumes tok' w))
          else st.trade_volumes tok' w,
        volume_hourly := fun tok' b =>
          if tok' = tok ∧ b = hour_bucket ts then
            some (upsert_hourly v (st.volume_hourly tok' b))
          else st.volume_hourly tok' b } := by
  simp [accumulate_trade_volume, not_le.mpr hv]

theorem accumulate_window_proj (st : VolumeState) (tok : ℕ) (v : ℚ) (ts : ℤ)
    (hv : 0 < v) (w : ℤ) (hw : w ∈ window_lengths) :
    (accumulate_trade_volume st tok (some v) ts).trade_volumes tok w =
      some (upsert_trade_window w v ts (st.trade_volumes tok w)) := by
  rw [accumulate_pos_def st tok v ts hv]
  exact if_pos ⟨rfl, hw⟩

/-- Running a list of in-window trades over an existing row accumulates
volumes and counts and leaves `first_trade_ts` unchanged. -/
theorem accumulate_list_run (tok : ℕ) (w : ℤ) (hw : w ∈ window_lengths)
    (trades : List (ℚ × ℤ)) (st : VolumeState) (r0 : WindowRow)
    (hrow : st.trade_volumes tok w = some r0)
    (hpos : ∀ p ∈ trades, 0 < p.1)
    (hspan : ∀ p ∈ trades, p.2 - r0.first_trade_ts < w) :
    ∃ r, (accumulate_list st tok trades).trade_volumes tok w = some r ∧
      r.volume_total = r0.volume_total + (trades.map Prod.fst).sum ∧
      r.trade_count = r0.trade_count + trades.length ∧
      r.first_trade_ts = r0.first_trade_ts := by
  induction trades generalizing st r0 with
  | nil =>
      exact ⟨r0, hrow, by simp, by simp, rfl⟩
  | cons p rest ih =>
      have hv : 0 < p.1 := hpos p (List.mem_cons_self _ _)
      have hlt : p.2 - r0.first_trade_ts < w := hspan p (List.mem_cons_self _ _)
      have hstep :
          (accumulate_trade_volume st tok (some p.1) p.2).trade_volumes tok w =
            some ⟨r0.volume_total + p.1, r0.trade_count + 1, r0.first_trade_ts,
              max r0.last_trade_ts p.2⟩ := by
        rw [accumulate_window_proj st tok p.1 p.2 hv w hw, hrow]
        simp [upsert_trade_window, not_le.mpr hlt]
      obtain ⟨r, hr, hvol, hcnt, hfirst⟩ :=
        ih (accumulate_trade_volume st tok (some p.1) p.2)
          ⟨r0.volume_total + p.1, r0.trade_count + 1, r0.first_trade_ts,
            max r0.last_trade_ts p.2⟩ hstep
          (fun q hq => hpos q (List.mem_cons_of_mem _ hq))
          (fun q hq => hspan q (List.mem_cons_of_mem _ hq))
      refine ⟨r, ?_, ?_, ?_, ?_⟩
      · simpa [accumulate_list] using hr
      · rw [hvol]; simp; ring
      · rw [hcnt]; simp; omega
      · exact hfirst

/-- Claim C1: for every sequence of `accumulate_trade_volume` calls for one
instrument whose trade timestamps all lie strictly within one window length
of each other, the resulting `volume_total` of the `(instrument, window)`
row equals the exact sum of the event volumes accumulated since the row's
own `first_trade_ts` (here the whole sequence, with `first_trade_ts` the
first-arriving trade's timestamp), independently of arrival order; and for
a single call on an existing row, the row resets (volume and count set to
the incoming trade only, `first_trade_ts` set to the incoming trade's
timestamp) exactly when `trade_ts - first_trade_ts ≥ window_length`. -/
theorem C1_rolling_window_accumulation
    (tok : ℕ) (w : ℤ) (hw : w ∈ window_lengths)
    (trades : List (ℚ × ℤ)) (st0 : VolumeState)
    (h0 : st0.trade_volumes tok w = none)
    (hpos : ∀ p ∈ trades, 0 < p.1)
    (hspan : ∀ p ∈ trades, ∀ q ∈ trades, p.2 - q.2 < w)
    (hne : trades ≠ []) :
    (∃ r, (accumulate_list st0 tok trades).trade_volumes tok w = some r ∧
        r.volume_total = (trades.map Prod.fst).sum ∧
        r.trade_count = trades.length ∧
        r.first_trade_ts = (trades.head hne).2) ∧
    (∀ trades' : List (ℚ × ℤ), trades.Perm trades' →
       ∀ r r', (accumulate_list st0 tok trades).trade_volumes tok w = some r →
         (accumulate_list st0 tok trades').trade_volumes tok w = some r' →
         r'.volume_total = r.volume_total ∧ r'.trade_count = r.trade_count) ∧
    (∀ (st : VolumeState) (r : WindowRow) (v : ℚ) (ts : ℤ),
       st.trade_volumes tok w = some r → 0 < v →
       (accumulate_trade_volume st tok (some v) ts).trade_volumes tok w =
         some (if w ≤ ts - r.first_trade_ts then
                 ⟨v, 1, ts, max r.last_trade_ts ts⟩
               else
                 ⟨r.volume_total + v, r.trade_count + 1, r.first_trade_ts,
                   max r.last_trade_ts ts⟩)) := by
  have main : ∀ (l : List (ℚ × ℤ)) (hl : l ≠ []),
      (∀ p ∈ l, 0 < p.1) → (∀ p ∈ l, ∀ q ∈ l, p.2 - q.2 < w) →
      ∃ r, (accumulate_list st0 tok l).trade_volumes tok w = some r ∧
        r.volume_total = (l.map Prod.fst).sum ∧
        r.trade_count = l.length ∧
        r.first_trade_ts = (l.head hl).2 := by
    intro l hl hposl hspanl
    match l with
    | p :: rest =>
      have hv : 0 < p.1 := hposl p (List.mem_cons_self _ _)
      have hfirst :
          (accumulate_trade_volume st0 tok (some p.1) p.2).trade_volumes tok w =
            some ⟨p.1, 1, p.2, p.2⟩ := by
        rw [accumulate_window_proj st0 tok p.1 p.2 hv w hw, h0]
        rfl
      obtain ⟨r, hr, hvol, hcnt, hfst⟩ :=
        accumulate_list_run tok w hw rest
          (accumulate_trade_volume st0 tok (some p.1) p.2) ⟨p.1, 1, p.2, p.2⟩
          hfirst
          (fun q hq => hposl q (List.mem_cons_of_mem _ hq))
          (fun q hq =>
            hspanl q (List.mem_cons_of_mem _ hq) p (List.mem_cons_self _ _))
      refine ⟨r, ?_, ?_, ?_, ?_⟩
      · simpa [accumulate_list] using hr
      · rw [hvol]; simp
      · rw [hcnt]; simp; omega
      · exact hfst
  refine ⟨main trades hne hpos hspan, ?_, ?_⟩
  · intro trades' hperm r r' hr hr'
    have hne' : trades' ≠ [] := by
      intro h
      exact hne (List.Perm.eq_nil (h ▸ hperm))
    obtain ⟨s, hs, hsvol, hscnt, _⟩ := main trades hne hpos hspan
    obtain ⟨s', hs', hsvol', hscnt', _⟩ :=
      main trades' hne'
        (fun p hp => hpos p (hperm.mem_iff.mpr hp))
        (fun p hp q hq =>
          hspan p (hperm.mem_iff.mpr hp) q (hperm.mem_iff.mpr hq))
    have hrs : r = s := (Option.some_inj.mp (hs.symm.trans hr)).symm
    have hrs' : r' = s' := (Option.some_inj.mp (hs'.symm.trans hr')).symm
    subst hrs hrs'
    constructor
    · rw [hsvol, hsvol']
      exact ((hperm.map Prod.fst).sum_eq).symm
    · rw [hscnt, hscnt']
      exact hperm.length_eq.symm
  · intro st r v ts hrow hv
    rw [accumulate_window_proj st tok v ts hv w hw, hrow]
    by_cases hcond : w ≤ ts - r.first_trade_ts
    · simp [upsert_trade_window, hcond]
    · simp [upsert_trade_window, hcond]

/-- Witness for C1 at a concrete input: token 1, the 5-minute window, two
trades of volume 2 and 3 arriving out of order inside one window span. -/
theorem C1_rolling_window_accumulation_witness :
    (∃ r, (accumulate_list emptyVolumeState 1
          [((2 : ℚ), (100 : ℤ)), ((3 : ℚ), (50 : ℤ))]).trade_volumes 1 300 = some r ∧
        r.volume_total = (([((2 : ℚ), (100 : ℤ)), ((3 : ℚ), (50 : ℤ))]).map Prod.fst).sum ∧
        r.trade_count = ([((2 : ℚ), (100 : ℤ)), ((3 : ℚ), (50 : ℤ))]).length ∧
        r.first_trade_ts =
          (([((2 : ℚ), (100 : ℤ)), ((3 : ℚ), (50 : ℤ))]).head (by decide)).2) ∧
    (∀ trades' : List (ℚ × ℤ),
       ([((2 : ℚ), (100 : ℤ)), ((3 : ℚ), (50 : ℤ))]).Perm trades' →
       ∀ r r',
         (accumulate_list emptyVolumeState 1
           [((2 : ℚ), (100 : ℤ)), ((3 : ℚ), (50 : ℤ))]).trade_volumes 1 300 = some r →
         (accumulate_list emptyVolumeState 1 trades').trade_volumes 1 300 = some r' →
         r'.volume_total = r.volume_total ∧ r'.trade_count = r.trade_count) ∧
    (∀ (st : VolumeState) (r : WindowRow) (v : ℚ) (ts : ℤ),
       st.trade_volumes 1 300 = some r → 0 < v →
       (accumulate_trade_volume st 1 (some v) ts).trade_volumes 1 300 =
         some (if (300 : ℤ) ≤ ts - r.first_trade_ts then
                 ⟨v, 1, ts, max r.last_trade_ts ts⟩
               else
                 ⟨r.volume_total + v, r.trade_count + 1, r.first_trade_ts,
                   max r.last_trade_ts ts⟩)) :=
  C1_rolling_window_accumulation 1 300 (by decide)
    [((2 : ℚ), (100 : ℤ)), ((3 : ℚ), (50 : ℤ))] emptyVolumeState rfl
    (by decide) (by decide) (by decide)

/-- Claim C5: `accumulate_trade_volume` is a silent no-op for null, zero or
negative notional volume: the state (both the `trade_volumes` table and the
`volume_hourly` table) is returned unmodified, so there is no partial
write. -/
theorem C5_nonpositive_volume_noop (st : VolumeState) (tok : ℕ)
    (volume : Option ℚ) (ts : ℤ) (h : ∀ v, volume = some v → v ≤ 0) :
    accumulate_trade_volume st tok volume ts = st := by
  cases volume with
  | none => rfl
  | some v =>
      show (if v ≤ 0 then st else _) = st
      exact if_pos (h v rfl)

/-- Witness for C5 at a concrete input: a zero-volume trade leaves the empty
state untouched. -/
theorem C5_nonpositive_volume_noop_witness :
    accumulate_trade_volume emptyVolumeState 1 (some 0) 5 = emptyVolumeState :=
  C5_nonpositive_volume_noop emptyVolumeState 1 (some 0) 5
    (fun v hv => by
      rw [show v = 0 from (Option.some.injEq _ _ ▸ hv :).symm])

/-- Claim C6: every accepted (positive-volume) call also adds the trade's
volume and a count of one to the permanent hourly ledger row keyed by the
trade timestamp truncated to the hour; the hourly row only ever
accumulates (never resets), other hourly rows are untouched, and the
hourly result is independent of the rolling windows' contents (and hence
of whether any rolling window reset on that call). -/
theorem C6_hourly_ledger_accumulates (st : VolumeState) (tok : ℕ) (v : ℚ)
    (ts : ℤ) (hv : 0 < v) :
    ((accumulate_trade_volume st tok (some v) ts).volume_hourly tok (hour_bucket ts) =
        some (upsert_hourly v (st.volume_hourly tok (hour_bucket ts)))) ∧
    (st.volume_hourly tok (hour_bucket ts) = none →
        (accumulate_trade_volume st tok (some v) ts).volume_hourly tok
          (hour_bucket ts) = some ⟨v, 1⟩) ∧
    (∀ r, st.volume_hourly tok (hour_bucket ts) = some r →
        (accumulate_trade_volume st tok (some v) ts).volume_hourly tok
          (hour_bucket ts) = some ⟨r.volume_notional + v, r.trade_count + 1⟩) ∧
    (∀ tok' b, ¬(tok' = tok ∧ b = hour_bucket ts) →
        (accumulate_trade_volume st tok (some v) ts).volume_hourly tok' b =
          st.volume_hourly tok' b) ∧
    (∀ st' : VolumeState, st'.volume_hourly = st.volume_hourly →
        (accumulate_trade_volume st' tok (some v) ts).volume_hourly =
          (accumulate_trade_volume st tok (some v) ts).volume_hourly) := by
  have hproj : (accumulate_trade_volume st tok (some v) ts).volume_hourly tok
      (hour_bucket ts) = some (upsert_hourly v (st.volume_hourly tok (hour_bucket ts))) := by
    rw [accumulate_pos_def st tok v ts hv]
    exact if_pos ⟨rfl, rfl⟩
  refine ⟨hproj, ?_, ?_, ?_, ?_⟩
  · intro hnone
    rw [hproj, hnone]
    rfl
  · intro r hr
    rw [hproj, hr]
    rfl
  · intro tok' b hne
    rw [accumulate_pos_def st tok v ts hv]
    exact if_neg hne
  · intro st' hsame
    rw [accumulate_pos_def st tok v ts hv, accumulate_pos_def st' tok v ts hv]
    funext tok' b
    simp only [hsame]

/-- Witness for C6 at a concrete input: a trade of volume 7 at timestamp
4000 lands in the hourly bucket 3600. -/
theorem C6_hourly_ledger_accumulates_witness :
    ((accumulate_trade_volume emptyVolumeState 1 (some 7) 4000).volume_hourly 1
        (hour_bucket 4000) =
      some (upsert_hourly 7 (emptyVolumeState.volume_hourly 1 (hour_bucket 4000)))) ∧
    (emptyVolumeState.volume_hourly 1 (hour_bucket 4000) = none →
        (accumulate_trade_volume emptyVolumeState 1 (some 7) 4000).volume_hourly 1
          (hour_bucket 4000) = some ⟨7, 1⟩) ∧
    (∀ r, emptyVolumeState.volume_hourly 1 (hour_bucket 4000) = some r →
        (accumulate_trade_volume emptyVolumeState 1 (some 7) 4000).volume_hourly 1
          (hour_bucket 4000) = some ⟨r.volume_notional + 7, r.trade_count + 1⟩) ∧
    (∀ tok' b, ¬(tok' = 1 ∧ b = hour_bucket 4000) →
        (accumulate_trade_volume emptyVolumeState 1 (some 7) 4000).volume_hourly tok' b =
          emptyVolumeState.volume_hourly tok' b) ∧
    (∀ st' : VolumeState, st'.volume_hourly = emptyVolumeState.volume_hourly →
        (accumulate_trade_volume st' 1 (some 7) 4000).volume_hourly =
          (accumulate_trade_volume emptyVolumeState 1 (some 7) 4000).volume_hourly) :=
  C6_hourly_ledger_accumulates emptyVolumeState 1 7 4000 (by norm_num)

/-! ## Alert cleanup (`purge_settlement_noise_alerts.sql`) -/

/-- One row of the `alerts` table (the columns the cleanup script reads).
`alert_type` was added later with default `'price_move'`, so it is modelled
as nullable and coalesced where the script coalesces it. -/
structure Alert where
  alert_id : ℕ
  token_id : ℕ
  window_seconds : ℤ
  move_pp : ℚ
  alert_type : Option String
  created_at : ℤ
deriving DecidableEq

/-- One row of `market_tokens`: outcome is `'YES'` or `'NO'` by schema
check, but the script treats it defensively as free text. -/
structure MarketToken where
  token_id : ℕ
  market_id : ℕ
  outcome : String
deriving DecidableEq

/-- One row of `markets` (the columns the cleanup script reads). -/
structure Market where
  market_id : ℕ
  status : Option String
  end_date : Option ℤ
  resolved_at : Option ℤ
deriving DecidableEq

/-- One row of `alerts_suppressed_archive`: the archived copy carries the
complete original alert row (`to_jsonb(a)`). -/
structure ArchiveEntry where
  alert_id : ℕ
  suppression_reason : String
  alert_row : Alert
deriving DecidableEq

/-- The database state the cleanup script touches. -/
structure AlertDB where
  alerts : List Alert
  market_tokens : List MarketToken
  markets : List Market
  archive : List ArchiveEntry
deriving DecidableEq

/-- `JOIN market_tokens mt ON a.token_id = mt.token_id` (primary-key lookup). -/
def find_token (db : AlertDB) (tid : ℕ) : Option MarketToken :=
  db.market_tokens.find? (fun t => t.token_id == tid)

/-- `JOIN markets m ON mt.market_id = m.market_id` (primary-key lookup). -/
def find_market (db : AlertDB) (mid : ℕ) : Option Market :=
  db.markets.find? (fun m => m.market_id == mid)

/-- SQL `COALESCE` on two nullable timestamps. -/
def coalesce_ts : Option ℤ → Option ℤ → Option ℤ
  | some x, _ => some x
  | none, y => y

/-- The chained join `alerts → market_tokens → markets` of the cleanup
script. -/
def market_of_alert (db : AlertDB) (a : Alert) : Option Market :=
  (find_token db a.token_id).bind (fun t => find_market db t.market_id)

/-- The selection condition of pass 1 on a joined `(market, alert)` pair:
the alert was created at/after `end_date`, or the market is not active and
the alert was created at/after `COALESCE(resolved_at, end_date)`. -/
def settlement_cond (m : Market) (a : Alert) : Bool :=
  (match m.end_date with
   | some e => decide (e ≤ a.created_at)
   | none => false)
  ||
  ((m.status.getD "" != "active")
    &&
    (match coalesce_ts m.resolved_at m.end_date with
     | some r => decide (r ≤ a.created_at)
     | none => false))

/-- The `to_delete` predicate of pass 1.  Alerts whose token or market join
fails are not selected. -/
def expired_or_resolved (db : AlertDB) (a : Alert) : Bool :=
  match market_of_alert db a with
  | none => false
  | some m => settlement_cond m a

/-- The `UNIQUE (alert_id, suppression_reason)` conflict test. -/
def has_archive_key (arch : List ArchiveEntry) (i : ℕ) (reason : String) : Bool :=
  arch.any (fun x => x.alert_id == i && x.suppression_reason == reason)

/-- `INSERT ... ON CONFLICT (alert_id, suppression_reason) DO NOTHING`. -/
def archive_insert (arch : List ArchiveEntry) (e : ArchiveEntry) : List ArchiveEntry :=
  if has_archive_key arch e.alert_id e.suppression_reason then arch else arch ++ [e]

/-- Archive a batch of entries in order. -/
def archive_all (arch : List ArchiveEntry) (es : List ArchiveEntry) : List ArchiveEntry :=
  es.foldl archive_insert arch

/-- Pass 1 of the cleanup script: archive then delete every alert created
at/after expiry/resolution. -/
def settlement_pass (db : AlertDB) : AlertDB :=
  let dels := db.alerts.filter (fun a => expired_or_resolved db a)
  let del_ids := dels.map Alert.alert_id
  { db with
    alerts := db.alerts.filter (fun a => !(del_ids.contains a.alert_id)),
    archive := archive_all db.archive
      (dels.map (fun a => ⟨a.alert_id, "expired_or_resolved_at_alert_time", a⟩)) }

/-- One row of the `scoped` CTE of pass 2: the alert joined with its token,
with `alert_type` coalesced to `'price_move'` and `created_at` truncated to
the minute. -/
structure ScopedRow where
  alert_id : ℕ
  window_seconds : ℤ
  alert_type : String
  minute_bucket : ℤ
  market_id : ℕ
  outcome : String
  move_pp : ℚ
  created_at : ℤ
deriving DecidableEq

/-- `DATE_TRUNC('minute', ts)` on epoch seconds. -/
def minute_bucket (ts : ℤ) : ℤ := 60 * (ts / 60)

/-- The `scoped` row of one alert, when its token join succeeds. -/
def scoped_row (db : AlertDB) (a : Alert) : Option ScopedRow :=
  (find_token db a.token_id).map (fun t =>
    ⟨a.alert_id, a.window_seconds, a.alert_type.getD "price_move",
      minute_bucket a.created_at, t.market_id, t.outcome, a.move_pp, a.created_at⟩)

/-- The `scoped` CTE. -/
def scoped_cte (db : AlertDB) : List ScopedRow :=
  db.alerts.filterMap (scoped_row db)

/-- The `PARTITION BY`/`GROUP BY` key of pass 2:
`(market_id, window_seconds, alert_type, minute_bucket)`. -/
abbrev GroupKey := ℕ × ℤ × String × ℤ

def gkey (s : ScopedRow) : GroupKey :=
  (s.market_id, s.window_seconds, s.alert_type, s.minute_bucket)

/-- SQL `UPPER` (character-wise uppercase). -/
def upper_str (s : String) : String := String.mk (s.data.map Char.toUpper)

/-- `UPPER(COALESCE(outcome, '')) IN ('YES', 'Y')`. -/
def is_yes_outcome (o : String) : Bool :=
  upper_str o == "YES" || upper_str o == "Y"

/-- `UPPER(COALESCE(outcome, '')) IN ('NO', 'N')`. -/
def is_no_outcome (o : String) : Bool :=
  upper_str o == "NO" || upper_str o == "N"

/-- The `mirror_groups` CTE: a key whose group contains both a YES-side and
a NO-side row. -/
def is_mirror_group (rows : List ScopedRow) (k : GroupKey) : Bool :=
  (rows.any (fun s => gkey s == k && is_yes_outcome s.outcome)) &&
  (rows.any (fun s => gkey s == k && is_no_outcome s.outcome))

/-- The YES-side-first sort key (`CASE WHEN ... THEN 0 ELSE 1 END`). -/
def yes_first (s : ScopedRow) : ℕ := if is_yes_outcome s.outcome then 0 else 1

/-- Strict "sorts before" for
`ORDER BY ABS(move_pp) DESC, yes-side first, created_at DESC`. -/
def precedes (a b : ScopedRow) : Bool :=
  decide (|b.move_pp| < |a.move_pp|) ||
  (|a.move_pp| == |b.move_pp| &&
    (decide (yes_first a < yes_first b) ||
     (yes_first a == yes_first b && decide (b.created_at < a.created_at))))

/-- The `rn = 1` row of one partition: the first row in sort order (stable
for fully tied rows). -/
def pick_best : List ScopedRow → Option ScopedRow
  | [] => none
  | x :: xs => some (xs.foldl (fun best s => if precedes s best then s else best) x)

/-- The rows of one partition. -/
def group_rows (rows : List ScopedRow) (k : GroupKey) : List ScopedRow :=
  rows.filter (fun s => gkey s == k)

/-- The `to_delete` ids of pass 2: every scoped row of a mirror group other
than the `rn = 1` row of its partition. -/
def mirror_del_ids (db : AlertDB) : List ℕ :=
  let rows := scoped_cte db
  rows.filterMap (fun s =>
    if is_mirror_group rows (gkey s) then
      match pick_best (group_rows rows (gkey s)) with
      | some b => if s.alert_id == b.alert_id then none else some s.alert_id
      | none => none
    else none)

/-- Pass 2 of the cleanup script: archive then delete every mirror
duplicate. -/
def mirror_pass (db : AlertDB) : AlertDB :=
  let del_ids := mirror_del_ids db
  let dels := db.alerts.filter (fun a => del_ids.contains a.alert_id)
  { db with
    alerts := db.alerts.filter (fun a => !(del_ids.contains a.alert_id)),
    archive := archive_all db.archive
      (dels.map (fun a => ⟨a.alert_id, "mirror_yes_no_duplicates", a⟩)) }

/-- The whole cleanup script: the settlement-noise pass followed by the
mirror pass, in one transaction. -/
def purge_settlement_noise_alerts (db : AlertDB) : AlertDB :=
  mirror_pass (settlement_pass db)

theorem find_token_settlement_pass (db : AlertDB) (tid : ℕ) :
    find_token (settlement_pass db) tid = find_token db tid := rfl

theorem find_token_mirror_pass (db : AlertDB) (tid : ℕ) :
    find_token (mirror_pass db) tid = find_token db tid := rfl

theorem find_market_settlement_pass (db : AlertDB) (mid : ℕ) :
    find_market (settlement_pass db) mid = find_market db mid := rfl

theorem expired_or_resolved_settlement_pass (db : AlertDB) (a : Alert) :
    expired_or_resolved (settlement_pass db) a = expired_or_resolved db a := rfl

theorem scoped_row_settlement_pass (db : AlertDB) (a : Alert) :
    scoped_row (settlement_pass db) a = scoped_row db a := rfl

theorem mem_settlement_pass (db : AlertDB) (a : Alert) :
    a ∈ (settlement_pass db).alerts ↔
      a ∈ db.alerts ∧
        ((db.alerts.filter (fun x => expired_or_resolved db x)).map
            Alert.alert_id).contains a.alert_id = false := by
  unfold settlement_pass
  simp only [List.mem_filter, Bool.not_eq_true']

theorem mem_mirror_pass (db : AlertDB) (a : Alert) :
    a ∈ (mirror_pass db).alerts ↔
      a ∈ db.alerts ∧ (mirror_del_ids db).contains a.alert_id = false := by
  unfold mirror_pass
  simp only [List.mem_filter, Bool.not_eq_true']

/-- A pass-1 survivor does not satisfy the pass-1 deletion predicate. -/
theorem settlement_survivor_not_marked (db : AlertDB) (a : Alert)
    (ha : a ∈ (settlement_pass db).alerts) :
    expired_or_resolved db a = false := by
  obtain ⟨hmem, hnc⟩ := (mem_settlement_pass db a).mp ha
  by_contra hmark
  rw [Bool.not_eq_false] at hmark
  simp at hnc
  exact hnc a hmem hmark rfl

/-- Claim C3: after running the cleanup, no alert row remains whose
`created_at` is at or after the underlying market's `end_date`, nor, for a
non-active market, at or after its resolution time; every such alert is
deleted by pass 1 and pass 2 only deletes more. -/
theorem C3_settlement_suppression (db : AlertDB) (a : Alert)
    (ha : a ∈ (purge_settlement_noise_alerts db).alerts)
    (t : MarketToken) (ht : find_token db a.token_id = some t)
    (m : Market) (hm : find_market db t.market_id = some m) :
    (∀ e, m.end_date = some e → a.created_at < e) ∧
    (m.status.getD "" ≠ "active" →
      ∀ r, m.resolved_at = some r → a.created_at < r) := by
  have hs : a ∈ (settlement_pass db).alerts :=
    ((mem_mirror_pass (settlement_pass db) a).mp ha).1
  have hmark : expired_or_resolved db a = false :=
    settlement_survivor_not_marked db a hs
  have hma : market_of_alert db a = some m := by
    rw [market_of_alert, ht, Option.some_bind, hm]
  have hcond : settlement_cond m a = false := by
    rw [expired_or_resolved, hma] at hmark
    exact hmark
  rw [settlement_cond, Bool.or_eq_false_iff] at hcond
  obtain ⟨hend, hres⟩ := hcond
  constructor
  · intro e he
    rw [he] at hend
    simpa using hend
  · intro hstat r hr
    rw [hr] at hres
    have hcoal : coalesce_ts (some r) m.end_date = some r := rfl
    rw [hcoal] at hres
    rw [Bool.and_eq_false_iff] at hres
    rcases hres with hres | hres
    · exact absurd (bne_iff_ne.mpr hstat) (by simpa using hres)
    · simpa using hres

/-- Concrete alert database for the cleanup witnesses: one active market,
one YES token, one pre-expiry alert. -/
def exAlert3 : Alert := ⟨1, 1, 300, 5, some "price_move", 500⟩

def exToken3 : MarketToken := ⟨1, 1, "YES"⟩

def exMarket3 : Market := ⟨1, some "active", some 1000, none⟩

def exDB3 : AlertDB := ⟨[exAlert3], [exToken3], [exMarket3], []⟩

/-- Witness for C3 at a concrete input: the surviving alert of `exDB3` was
created before the market's end date. -/
theorem C3_settlement_suppression_witness :
    (∀ e, exMarket3.end_date = some e → exAlert3.created_at < e) ∧
    (exMarket3.status.getD "" ≠ "active" →
      ∀ r, exMarket3.resolved_at = some r → exAlert3.created_at < r) :=
  C3_settlement_suppression exDB3 exAlert3 (by decide) exToken3 (by decide)
    exMarket3 (by decide)

theorem precedes_iff (a b : ScopedRow) :
    precedes a b = true ↔
      |b.move_pp| < |a.move_pp| ∨
        (|a.move_pp| = |b.move_pp| ∧
          (yes_first a < yes_first b ∨
            (yes_first a = yes_first b ∧ b.created_at < a.created_at))) := by
  simp [precedes]

theorem precedes_irrefl (a : ScopedRow) : precedes a a = false := by
  simp [precedes]

theorem precedes_trans (a b c : ScopedRow) (hab : precedes a b = true)
    (hbc : precedes b c = true) : precedes a c = true := by
  rw [precedes_iff] at hab hbc ⊢
  rcases hab with hab | ⟨hab, hab2⟩ <;> rcases hbc with hbc | ⟨hbc, hbc2⟩
  · exact Or.inl (lt_trans hbc hab)
  · exact Or.inl (hbc ▸ hab)
  · exact Or.inl (hab ▸ hbc)
  · refine Or.inr ⟨hab.trans hbc, ?_⟩
    rcases hab2 with h | ⟨he, hc⟩ <;> rcases hbc2 with h' | ⟨he', hc'⟩
    · exact Or.inl (lt_trans h h')
    · exact Or.inl (he' ▸ h)
    · exact Or.inl (he ▸ h')
    · exact Or.inr ⟨he.trans he', lt_trans hc' hc⟩

theorem precedes_not_trans (a b c : ScopedRow) (hab : precedes a b = false)
    (hbc : precedes b c = false) : precedes a c = false := by
  rw [← Bool.not_eq_true] at hab hbc ⊢
  rw [precedes_iff] at hab hbc ⊢
  push_neg at hab hbc ⊢
  obtain ⟨hab1, hab2⟩ := hab
  obtain ⟨hbc1, hbc2⟩ := hbc
  have hac1 : |a.move_pp| ≤ |c.move_pp| := le_trans hab1 hbc1
  refine ⟨hac1, ?_⟩
  intro hce
  have he1 : |a.move_pp| = |b.move_pp| :=
    le_antisymm hab1 (by rw [hce]; exact hbc1)
  have he2 : |b.move_pp| = |c.move_pp| :=
    le_antisymm hbc1 (by rw [← he1]; exact le_of_eq hce.symm)
  obtain ⟨hy1, hy2⟩ := hab2 he1
  obtain ⟨hy1', hy2'⟩ := hbc2 he2
  refine ⟨le_trans hy1' hy1, ?_⟩
  intro hye
  have h1 : yes_first a = yes_first b := by omega
  have h2 : yes_first b = yes_first c := by omega
  exact le_trans (hy2 h1) (hy2' h2)

/-- Eliminating a failed comparison: the second row is at least as strong
under `ABS(move_pp) DESC, yes-side first, created_at DESC`. -/
theorem not_precedes_elim (s' s : ScopedRow) (h : precedes s' s = false) :
    |s'.move_pp| ≤ |s.move_pp| ∧
      (|s'.move_pp| = |s.move_pp| →
        yes_first s ≤ yes_first s' ∧
          (yes_first s = yes_first s' → s'.created_at ≤ s.created_at)) := by
  rw [← Bool.not_eq_true, precedes_iff] at h
  push_neg at h
  obtain ⟨h1, h2⟩ := h
  refine ⟨h1, ?_⟩
  intro he
  obtain ⟨hy1, hy2⟩ := h2 he
  exact ⟨hy1, fun hye => hy2 hye.symm⟩

/-- The `foldl` in `pick_best` returns a row no earlier element sorts
strictly before. -/
theorem foldl_best_spec (xs : List ScopedRow) (b0 : ScopedRow) :
    (xs.foldl (fun best s => if precedes s best then s else best) b0 = b0 ∨
      xs.foldl (fun best s => if precedes s best then s else best) b0 ∈ xs) ∧
    precedes b0 (xs.foldl (fun best s => if precedes s best then s else best) b0)
        = false ∧
    ∀ s ∈ xs,
      precedes s (xs.foldl (fun best s => if precedes s best then s else best) b0)
        = false := by
  induction xs generalizing b0 with
  | nil => exact ⟨Or.inl rfl, precedes_irrefl b0, by simp⟩
  | cons y ys ih =>
      by_cases hy : precedes y b0 = true
      · have hstep : (y :: ys).foldl
            (fun best s => if precedes s best then s else best) b0 =
            ys.foldl (fun best s => if precedes s best then s else best) y := by
          simp [List.foldl_cons, hy]
        obtain ⟨hmem, hb0, hall⟩ := ih y
        rw [hstep]
        refine ⟨?_, ?_, ?_⟩
        · rcases hmem with h | h
          · exact Or.inr (by rw [h]; exact List.mem_cons_self _ _)
          · exact Or.inr (List.mem_cons_of_mem _ h)
        · cases hcon : precedes b0
              (ys.foldl (fun best s => if precedes s best then s else best) y) with
          | false => rfl
          | true =>
              exact absurd (precedes_trans _ _ _ hy hcon) (by rw [hb0]; simp)
        · intro s hs
          rcases List.mem_cons.mp hs with rfl | hs
          · exact hb0
          · exact hall s hs
      · have hyf : precedes y b0 = false := Bool.not_eq_true _ ▸ hy
        have hstep : (y :: ys).foldl
            (fun best s => if precedes s best then s else best) b0 =
            ys.foldl (fun best s => if precedes s best then s else best) b0 := by
          simp [List.foldl_cons, hyf]
        obtain ⟨hmem, hb0, hall⟩ := ih b0
        rw [hstep]
        refine ⟨?_, hb0, ?_⟩
        · rcases hmem with h | h
          · exact Or.inl h
          · exact Or.inr (List.mem_cons_of_mem _ h)
        · intro s hs
          rcases List.mem_cons.mp hs with rfl | hs
          · exact precedes_not_trans _ _ _ hyf hb0
          · exact hall s hs

/-- `pick_best` of a nonempty partition is a maximum of the sort order. -/
theorem pick_best_spec (x : ScopedRow) (xs : List ScopedRow) :
    ∃ b, pick_best (x :: xs) = some b ∧ b ∈ x :: xs ∧
      ∀ s ∈ x :: xs, precedes s b = false := by
  obtain ⟨hmem, hb0, hall⟩ := foldl_best_spec xs x
  refine ⟨_, rfl, ?_, ?_⟩
  · rcases hmem with h | h
    · exact (by rw [h]; exact List.mem_cons_self _ _)
    · exact List.mem_cons_of_mem _ h
  · intro s hs
    rcases List.mem_cons.mp hs with rfl | hs
    · exact hb0
    · exact hall s hs

/-- The primary-key column of the `alerts` table. -/
def alert_ids (db : AlertDB) : List ℕ := db.alerts.map Alert.alert_id

/-- Under the `alert_id` primary key, alerts are determined by their id. -/
theorem alert_eq_of_id_eq (db : AlertDB) (hnd : (alert_ids db).Nodup)
    (a a' : Alert) (ha : a ∈ db.alerts) (ha' : a' ∈ db.alerts)
    (hid : a.alert_id = a'.alert_id) : a = a' :=
  List.inj_on_of_nodup_map hnd ha ha' hid

theorem scoped_row_id (db : AlertDB) (a : Alert) (s : ScopedRow)
    (h : scoped_row db a = some s) : s.alert_id = a.alert_id := by
  unfold scoped_row at h
  cases hf : find_token db a.token_id with
  | none => rw [hf] at h; simp at h
  | some t =>
      rw [hf] at h
      simp only [Option.map_some'] at h
      rw [← Option.some_inj.mp h]

theorem mem_scoped_cte (db : AlertDB) (s : ScopedRow) :
    s ∈ scoped_cte db ↔ ∃ a ∈ db.alerts, scoped_row db a = some s :=
  List.mem_filterMap

/-- Under the primary key, scoped rows are determined by their alert id. -/
theorem scoped_row_unique (db : AlertDB) (hnd : (alert_ids db).Nodup)
    (s s' : ScopedRow) (hs : s ∈ scoped_cte db) (hs' : s' ∈ scoped_cte db)
    (hid : s.alert_id = s'.alert_id) : s = s' := by
  obtain ⟨a, ha, hrow⟩ := (mem_scoped_cte db s).mp hs
  obtain ⟨a', ha', hrow'⟩ := (mem_scoped_cte db s').mp hs'
  have : a = a' := by
    apply alert_eq_of_id_eq db hnd a a' ha ha'
    rw [← scoped_row_id db a s hrow, ← scoped_row_id db a' s' hrow', hid]
  subst this
  exact Option.some_inj.mp (hrow.symm.trans hrow')

theorem mem_group_rows (rows : List ScopedRow) (k : GroupKey) (s : ScopedRow) :
    s ∈ group_rows rows k ↔ s ∈ rows ∧ gkey s = k := by
  unfold group_rows
  rw [List.mem_filter]
  simp

theorem is_mirror_group_intro (rows : List ScopedRow) (k : GroupKey)
    (sy : ScopedRow) (hsy : sy ∈ rows) (hky : gkey sy = k)
    (hyes : is_yes_outcome sy.outcome = true)
    (sn : ScopedRow) (hsn : sn ∈ rows) (hkn : gkey sn = k)
    (hno : is_no_outcome sn.outcome = true) :
    is_mirror_group rows k = true := by
  unfold is_mirror_group
  rw [Bool.and_eq_true, List.any_eq_true, List.any_eq_true]
  exact ⟨⟨sy, hsy, by simp [hky, hyes]⟩, ⟨sn, hsn, by simp [hkn, hno]⟩⟩

theorem is_mirror_group_elim (rows : List ScopedRow) (k : GroupKey)
    (h : is_mirror_group rows k = true) :
    (∃ sy ∈ rows, gkey sy = k ∧ is_yes_outcome sy.outcome = true) ∧
    (∃ sn ∈ rows, gkey sn = k ∧ is_no_outcome sn.outcome = true) := by
  unfold is_mirror_group at h
  rw [Bool.and_eq_true, List.any_eq_true, List.any_eq_true] at h
  obtain ⟨⟨sy, hsy, hy⟩, ⟨sn, hsn, hn⟩⟩ := h
  rw [Bool.and_eq_true, beq_iff_eq] at hy hn
  exact ⟨⟨sy, hsy, hy.1, hy.2⟩, ⟨sn, hsn, hn.1, hn.2⟩⟩

/-- No outcome string is both YES-side and NO-side. -/
theorem yes_no_outcome_disjoint (o : String)
    (hy : is_yes_outcome o = true) (hn : is_no_outcome o = true) : False := by
  unfold is_yes_outcome at hy
  unfold is_no_outcome at hn
  rw [Bool.or_eq_true, beq_iff_eq, beq_iff_eq] at hy hn
  rcases hy with hy | hy <;> rcases hn with hn | hn <;>
    first
      | exact absurd (hy.symm.trans hn) (by decide)

theorem mem_mirror_del_ids (db : AlertDB) (i : ℕ) :
    i ∈ mirror_del_ids db ↔
      ∃ s ∈ scoped_cte db,
        is_mirror_group (scoped_cte db) (gkey s) = true ∧
        ∃ b, pick_best (group_rows (scoped_cte db) (gkey s)) = some b ∧
          s.alert_id ≠ b.alert_id ∧ i = s.alert_id := by
  unfold mirror_del_ids
  rw [List.mem_filterMap]
  constructor
  · rintro ⟨s, hs, hf⟩
    refine ⟨s, hs, ?_⟩
    split at hf
    · rename_i hg
      split at hf
      · rename_i b hb
        split at hf
        · exact absurd hf (by simp)
        · rename_i hne
          refine ⟨hg, b, hb, ?_, (Option.some_inj.mp hf).symm⟩
          intro he
          exact hne (by simp [he])
      · exact absurd hf (by simp)
    · exact absurd hf (by simp)
  · rintro ⟨s, hs, hg, b, hb, hne, rfl⟩
    refine ⟨s, hs, ?_⟩
    rw [if_pos hg, hb]
    show (if (s.alert_id == b.alert_id) = true then none
        else some s.alert_id) = some s.alert_id
    rw [if_neg (by simpa using hne)]

/-- In a mirror group, the mirror pass keeps exactly the `rn = 1` row:
an alert of the group survives iff it carries the best row's id. -/
theorem mirror_group_survivor (db : AlertDB) (hnd : (alert_ids db).Nodup)
    (k : GroupKey) (hk : is_mirror_group (scoped_cte db) k = true) :
    ∃ b, pick_best (group_rows (scoped_cte db) k) = some b ∧
      b ∈ group_rows (scoped_cte db) k ∧
      (∀ s ∈ group_rows (scoped_cte db) k, precedes s b = false) ∧
      (∀ a ∈ db.alerts, ∀ s, scoped_row db a = some s → gkey s = k →
        (a ∈ (mirror_pass db).alerts ↔ a.alert_id = b.alert_id)) := by
  obtain ⟨⟨sy, hsy, hky, hyes⟩, -⟩ := is_mirror_group_elim _ _ hk
  have hsyg : sy ∈ group_rows (scoped_cte db) k :=
    (mem_group_rows _ _ _).mpr ⟨hsy, hky⟩
  obtain ⟨x, xs, hG⟩ := List.exists_cons_of_ne_nil
    (List.ne_nil_of_mem hsyg)
  obtain ⟨b, hb, hbmem, hbmax⟩ := pick_best_spec x xs
  rw [← hG] at hb hbmem hbmax
  have hbG : b ∈ group_rows (scoped_cte db) k := hbmem
  have hbrows : b ∈ scoped_cte db := ((mem_group_rows _ _ _).mp hbG).1
  have hbkey : gkey b = k := ((mem_group_rows _ _ _).mp hbG).2
  refine ⟨b, hb, hbG, hbmax, ?_⟩
  intro a ha s hrow hkey
  have hsrows : s ∈ scoped_cte db := (mem_scoped_cte db s).mpr ⟨a, ha, hrow⟩
  have hsid : s.alert_id = a.alert_id := scoped_row_id db a s hrow
  constructor
  · intro hmem
    obtain ⟨-, hnc⟩ := (mem_mirror_pass db a).mp hmem
    by_contra hne
    have hdel : a.alert_id ∈ mirror_del_ids db := by
      rw [mem_mirror_del_ids]
      refine ⟨s, hsrows, ?_, b, ?_, ?_, ?_⟩
      · rw [hkey]; exact hk
      · rw [hkey]; exact hb
      · rw [hsid]; exact hne
      · rw [hsid]
    rw [← Bool.not_eq_true] at hnc
    exact hnc (by simpa using hdel)
  · intro hid
    rw [mem_mirror_pass]
    refine ⟨ha, ?_⟩
    rw [← Bool.not_eq_true]
    intro hc
    have hdel : a.alert_id ∈ mirror_del_ids db := by simpa using hc
    rw [mem_mirror_del_ids] at hdel
    obtain ⟨s', hs', hg', b', hb', hne', hieq⟩ := hdel
    have hss' : s' = s := by
      apply scoped_row_unique db hnd s' s hs' hsrows
      rw [hsid, ← hieq]
    subst hss'
    rw [hkey] at hg' hb'
    have hbb' : b' = b := Option.some_inj.mp (hb'.symm.trans hb)
    subst hbb'
    rw [hsid, hid] at hne'
    exact hne' rfl

theorem alert_ids_settlement_pass_nodup (db : AlertDB)
    (hnd : (alert_ids db).Nodup) :
    (alert_ids (settlement_pass db)).Nodup :=
  hnd.sublist (List.Sublist.map Alert.alert_id (List.filter_sublist _))

theorem settlement_pass_mem_of_not_marked (db : AlertDB)
    (hnd : (alert_ids db).Nodup) (a : Alert) (ha : a ∈ db.alerts)
    (hm : expired_or_resolved db a = false) :
    a ∈ (settlement_pass db).alerts := by
  rw [mem_settlement_pass]
  refine ⟨ha, ?_⟩
  cases hc : ((db.alerts.filter (fun x => expired_or_resolved db x)).map
      Alert.alert_id).contains a.alert_id with
  | false => rfl
  | true =>
      exfalso
      simp at hc
      obtain ⟨x, ⟨hx, hmx⟩, hid⟩ := hc
      have hxa : x = a := alert_eq_of_id_eq db hnd x a hx ha hid
      rw [hxa, hm] at hmx
      exact Bool.false_ne_true hmx

/-- Claim C2 (amended): whenever a YES alert and a NO alert of the same
market, window, type and one-minute bucket both exist and neither is
settlement-suppressed, the full cleanup leaves exactly one alert of that
group, namely the strongest by `|move_pp|`, ties broken in favour of the
YES side and then by most recent `created_at` (compared against every
group member that reaches the mirror pass). -/
theorem C2_mirror_suppression_amended (db : AlertDB)
    (hnd : (alert_ids db).Nodup)
    (y n : Alert) (hy : y ∈ db.alerts) (hn : n ∈ db.alerts)
    (sy sn : ScopedRow)
    (hsy : scoped_row db y = some sy) (hsn : scoped_row db n = some sn)
    (hyes : is_yes_outcome sy.outcome = true)
    (hno : is_no_outcome sn.outcome = true)
    (hkey : gkey sy = gkey sn)
    (hys : expired_or_resolved db y = false)
    (hns : expired_or_resolved db n = false) :
    ∃ a s, a ∈ (purge_settlement_noise_alerts db).alerts ∧
      scoped_row db a = some s ∧ gkey s = gkey sy ∧
      (∀ a' ∈ (purge_settlement_noise_alerts db).alerts, ∀ s',
        scoped_row db a' = some s' → gkey s' = gkey sy → a' = a) ∧
      (∀ a' ∈ (settlement_pass db).alerts, ∀ s',
        scoped_row db a' = some s' → gkey s' = gkey sy →
        |s'.move_pp| ≤ |s.move_pp| ∧
          (|s'.move_pp| = |s.move_pp| →
            yes_first s ≤ yes_first s' ∧
              (yes_first s = yes_first s' → s'.created_at ≤ s.created_at))) := by
  have hndY : (alert_ids (settlement_pass db)).Nodup :=
    alert_ids_settlement_pass_nodup db hnd
  have hyY : y ∈ (settlement_pass db).alerts :=
    settlement_pass_mem_of_not_marked db hnd y hy hys
  have hnY : n ∈ (settlement_pass db).alerts :=
    settlement_pass_mem_of_not_marked db hnd n hn hns
  have hsyC : sy ∈ scoped_cte (settlement_pass db) :=
    (mem_scoped_cte _ sy).mpr ⟨y, hyY, hsy⟩
  have hsnC : sn ∈ scoped_cte (settlement_pass db) :=
    (mem_scoped_cte _ sn).mpr ⟨n, hnY, hsn⟩
  have hk : is_mirror_group (scoped_cte (settlement_pass db)) (gkey sy) = true :=
    is_mirror_group_intro _ _ sy hsyC rfl hyes sn hsnC hkey.symm hno
  obtain ⟨b, hb, hbG, hbmax, hiff⟩ :=
    mirror_group_survivor (settlement_pass db) hndY (gkey sy) hk
  have hbrows : b ∈ scoped_cte (settlement_pass db) :=
    ((mem_group_rows _ _ _).mp hbG).1
  have hbkey : gkey b = gkey sy := ((mem_group_rows _ _ _).mp hbG).2
  obtain ⟨ab, habY, habrow⟩ := (mem_scoped_cte _ b).mp hbrows
  have habid : b.alert_id = ab.alert_id := scoped_row_id _ ab b habrow
  have habmem : ab ∈ (mirror_pass (settlement_pass db)).alerts :=
    (hiff ab habY b habrow hbkey).mpr habid.symm
  refine ⟨ab, b, habmem, habrow, hbkey, ?_, ?_⟩
  · intro a' ha' s' hrow' hkey'
    have ha'Y : a' ∈ (settlement_pass db).alerts :=
      ((mem_mirror_pass (settlement_pass db) a').mp ha').1
    have hid' : a'.alert_id = b.alert_id :=
      (hiff a' ha'Y s' hrow' hkey').mp ha'
    exact alert_eq_of_id_eq (settlement_pass db) hndY a' ab ha'Y habY
      (hid'.trans habid)
  · intro a' ha' s' hrow' hkey'
    have hs'C : s' ∈ scoped_cte (settlement_pass db) :=
      (mem_scoped_cte _ s').mpr ⟨a', ha', hrow'⟩
    have hs'G : s' ∈ group_rows (scoped_cte (settlement_pass db)) (gkey sy) :=
      (mem_group_rows _ _ _).mpr ⟨hs'C, hkey'⟩
    exact not_precedes_elim s' b (hbmax s' hs'G)

/-- A YES alert and a NO alert of one market, both created at/after the
market's `end_date`, in the same minute bucket. -/
def cexYesAlert : Alert := ⟨1, 1, 300, 5, some "price_move", 150⟩

def cexNoAlert : Alert := ⟨2, 2, 300, -5, some "price_move", 150⟩

def cexDB : AlertDB :=
  ⟨[cexYesAlert, cexNoAlert], [⟨1, 1, "YES"⟩, ⟨2, 1, "NO"⟩],
    [⟨1, some "active", some 100, none⟩], []⟩

def cexYesRow : ScopedRow := ⟨1, 300, "price_move", 120, 1, "YES", 5, 150⟩

def cexNoRow : ScopedRow := ⟨2, 300, "price_move", 120, 1, "NO", -5, 150⟩

/-- Counterexample to claim C2 as stated: `cexDB` holds a YES alert and a
NO alert of the same market, window, type and one-minute bucket, yet
running the full cleanup leaves zero (not exactly one) alerts, because the
settlement-noise pass deletes both before the mirror pass runs. -/
theorem C2_mirror_suppression_counterexample :
    cexYesAlert ∈ cexDB.alerts ∧ cexNoAlert ∈ cexDB.alerts ∧
    scoped_row cexDB cexYesAlert = some cexYesRow ∧
    scoped_row cexDB cexNoAlert = some cexNoRow ∧
    is_yes_outcome cexYesRow.outcome = true ∧
    is_no_outcome cexNoRow.outcome = true ∧
    gkey cexYesRow = gkey cexNoRow ∧
    (purge_settlement_noise_alerts cexDB).alerts = [] := by decide

/-- A YES/NO mirror pair created before the market's end date: the NO side
has the larger absolute move. -/
def mirYesAlert : Alert := ⟨1, 1, 300, 5, some "price_move", 120⟩

def mirNoAlert : Alert := ⟨2, 2, 300, -7, some "price_move", 130⟩

def mirDB : AlertDB :=
  ⟨[mirYesAlert, mirNoAlert], [⟨1, 1, "YES"⟩, ⟨2, 1, "NO"⟩],
    [⟨1, some "active", some 100000, none⟩], []⟩

def mirYesRow : ScopedRow := ⟨1, 300, "price_move", 120, 1, "YES", 5, 120⟩

def mirNoRow : ScopedRow := ⟨2, 300, "price_move", 120, 1, "NO", -7, 130⟩

/-- Witness for the amended C2 at a concrete input: in `mirDB` exactly one
of the two mirror alerts survives the full cleanup. -/
theorem C2_mirror_suppression_amended_witness :
    ∃ a s, a ∈ (purge_settlement_noise_alerts mirDB).alerts ∧
      scoped_row mirDB a = some s ∧ gkey s = gkey mirYesRow ∧
      (∀ a' ∈ (purge_settlement_noise_alerts mirDB).alerts, ∀ s',
        scoped_row mirDB a' = some s' → gkey s' = gkey mirYesRow → a' = a) ∧
      (∀ a' ∈ (settlement_pass mirDB).alerts, ∀ s',
        scoped_row mirDB a' = some s' → gkey s' = gkey mirYesRow →
        |s'.move_pp| ≤ |s.move_pp| ∧
          (|s'.move_pp| = |s.move_pp| →
            yes_first s ≤ yes_first s' ∧
              (yes_first s = yes_first s' → s'.created_at ≤ s.created_at))) :=
  C2_mirror_suppression_amended mirDB (by decide) mirYesAlert mirNoAlert
    (by decide) (by decide) mirYesRow mirNoRow (by decide) (by decide)
    (by decide) (by decide) (by decide) (by decide) (by decide)

theorem alertdb_ext (x y : AlertDB) (h1 : x.alerts = y.alerts)
    (h2 : x.market_tokens = y.market_tokens) (h3 : x.markets = y.markets)
    (h4 : x.archive = y.archive) : x = y := by
  cases x; cases y; simp_all

/-- The settlement pass is the identity on a database with no alert left
to select. -/
theorem settlement_pass_eq_self (db : AlertDB)
    (h : ∀ a ∈ db.alerts, expired_or_resolved db a = false) :
    settlement_pass db = db := by
  have hdels : db.alerts.filter (fun a => expired_or_resolved db a) = [] := by
    rw [List.filter_eq_nil_iff]
    intro a ha
    simp [h a ha]
  apply alertdb_ext
  · show db.alerts.filter (fun a =>
        !(((db.alerts.filter (fun x => expired_or_resolved db x)).map
          Alert.alert_id).contains a.alert_id)) = db.alerts
    rw [hdels]
    simp
  · rfl
  · rfl
  · show archive_all db.archive
        ((db.alerts.filter (fun x => expired_or_resolved db x)).map
          (fun a => ⟨a.alert_id, "expired_or_resolved_at_alert_time", a⟩)) =
      db.archive
    rw [hdels]
    rfl

/-- The mirror pass is the identity on a database with no mirror duplicate
to delete. -/
theorem mirror_pass_eq_self (db : AlertDB) (h : mirror_del_ids db = []) :
    mirror_pass db = db := by
  apply alertdb_ext
  · show db.alerts.filter
        (fun a => !((mirror_del_ids db).contains a.alert_id)) = db.alerts
    rw [h]
    simp
  · rfl
  · rfl
  · show archive_all db.archive
        ((db.alerts.filter (fun a => (mirror_del_ids db).contains a.alert_id)).map
          (fun a => ⟨a.alert_id, "mirror_yes_no_duplicates", a⟩)) = db.archive
    rw [h]
    simp [archive_all]

/-- After a full cleanup no mirror group is left: its survivor is unique,
so no group can still contain both a YES-side and a NO-side row. -/
theorem no_mirror_group_after_purge (db : AlertDB)
    (hnd : (alert_ids db).Nodup) (k : GroupKey) :
    is_mirror_group (scoped_cte (purge_settlement_noise_alerts db)) k = false := by
  cases hk : is_mirror_group (scoped_cte (purge_settlement_noise_alerts db)) k with
  | false => rfl
  | true =>
      exfalso
      obtain ⟨⟨sy, hsy, hky, hyes⟩, ⟨sn, hsn, hkn, hno⟩⟩ :=
        is_mirror_group_elim _ _ hk
      obtain ⟨ay, hayX, hrowy⟩ := (mem_scoped_cte _ sy).mp hsy
      obtain ⟨an, hanX, hrown⟩ := (mem_scoped_cte _ sn).mp hsn
      have hndY : (alert_ids (settlement_pass db)).Nodup :=
        alert_ids_settlement_pass_nodup db hnd
      have hayY : ay ∈ (settlement_pass db).alerts :=
        ((mem_mirror_pass (settlement_pass db) ay).mp hayX).1
      have hanY : an ∈ (settlement_pass db).alerts :=
        ((mem_mirror_pass (settlement_pass db) an).mp hanX).1
      have hsyY : sy ∈ scoped_cte (settlement_pass db) :=
        (mem_scoped_cte _ sy).mpr ⟨ay, hayY, hrowy⟩
      have hsnY : sn ∈ scoped_cte (settlement_pass db) :=
        (mem_scoped_cte _ sn).mpr ⟨an, hanY, hrown⟩
      have hkY : is_mirror_group (scoped_cte (settlement_pass db)) k = true :=
        is_mirror_group_intro _ _ sy hsyY hky hyes sn hsnY hkn hno
      obtain ⟨b, hb, hbG, hbmax, hiff⟩ :=
        mirror_group_survivor (settlement_pass db) hndY k hkY
      have hidy : ay.alert_id = b.alert_id := (hiff ay hayY sy hrowy hky).mp hayX
      have hidn : an.alert_id = b.alert_id := (hiff an hanY sn hrown hkn).mp hanX
      have hayn : ay = an := alert_eq_of_id_eq (settlement_pass db) hndY ay an
        hayY hanY (hidy.trans hidn.symm)
      subst hayn
      have hss : sy = sn := Option.some_inj.mp (hrowy.symm.trans hrown)
      subst hss
      exact yes_no_outcome_disjoint sy.outcome hyes hno

theorem mirror_del_ids_purge_nil (db : AlertDB)
    (hnd : (alert_ids db).Nodup) :
    mirror_del_ids (purge_settlement_noise_alerts db) = [] := by
  apply List.filterMap_eq_nil_iff.mpr
  intro s hs
  simp [no_mirror_group_after_purge db hnd (gkey s)]

/-- Claim C7: the cleanup is idempotent: a second run of the full script
(settlement-noise pass followed by the mirror pass) on the state produced
by a first run deletes no further alerts, archives nothing further, and
leaves the database unchanged. -/
theorem C7_cleanup_idempotent (db : AlertDB) (hnd : (alert_ids db).Nodup) :
    purge_settlement_noise_alerts (purge_settlement_noise_alerts db) =
      purge_settlement_noise_alerts db := by
  have hX : ∀ a ∈ (purge_settlement_noise_alerts db).alerts,
      expired_or_resolved (purge_settlement_noise_alerts db) a = false := by
    intro a ha
    have haY : a ∈ (settlement_pass db).alerts :=
      ((mem_mirror_pass (settlement_pass db) a).mp ha).1
    exact settlement_survivor_not_marked db a haY
  have h1 : settlement_pass (purge_settlement_noise_alerts db) =
      purge_settlement_noise_alerts db :=
    settlement_pass_eq_self _ hX
  show mirror_pass (settlement_pass (purge_settlement_noise_alerts db)) =
    purge_settlement_noise_alerts db
  rw [h1]
  exact mirror_pass_eq_self _ (mirror_del_ids_purge_nil db hnd)

/-- Witness for C7 at a concrete input: re-running the cleanup on the
already-cleaned `exDB3` changes nothing. -/
theorem C7_cleanup_idempotent_witness :
    purge_settlement_noise_alerts (purge_settlement_noise_alerts exDB3) =
      purge_settlement_noise_alerts exDB3 :=
  C7_cleanup_idempotent exDB3 (by decide)

theorem mem_archive_insert_of_mem (arch : List ArchiveEntry)
    (e e' : ArchiveEntry) (h : e ∈ arch) : e ∈ archive_insert arch e' := by
  unfold archive_insert
  split
  · exact h
  · exact List.mem_append_left _ h

theorem mem_archive_all_of_mem (arch : List ArchiveEntry)
    (es : List ArchiveEntry) (e : ArchiveEntry) (h : e ∈ arch) :
    e ∈ archive_all arch es := by
  induction es generalizing arch with
  | nil => exact h
  | cons e0 es ih => exact ih _ (mem_archive_insert_of_mem arch e e0 h)

theorem has_archive_key_append (arch : List ArchiveEntry)
    (e' : ArchiveEntry) (i : ℕ) (r : String) (hne : e'.alert_id ≠ i) :
    has_archive_key (arch ++ [e']) i r = has_archive_key arch i r := by
  unfold has_archive_key
  rw [List.any_append]
  have : [e'].any (fun x => x.alert_id == i && x.suppression_reason == r)
      = false := by
    simp [hne]
  rw [this, Bool.or_false]

theorem has_archive_key_insert (arch : List ArchiveEntry)
    (e' : ArchiveEntry) (i : ℕ) (r : String) (hne : e'.alert_id ≠ i) :
    has_archive_key (archive_insert arch e') i r = has_archive_key arch i r := by
  unfold archive_insert
  split
  · rfl
  · exact has_archive_key_append arch e' i r hne

theorem has_archive_key_false_of_no_id (arch : List ArchiveEntry)
    (i : ℕ) (r : String) (h : ∀ e ∈ arch, e.alert_id ≠ i) :
    has_archive_key arch i r = false := by
  unfold has_archive_key
  rw [List.any_eq_false]
  intro e he
  simp [h e he]

theorem has_archive_key_archive_all (arch : List ArchiveEntry)
    (es : List ArchiveEntry) (i : ℕ) (r : String)
    (h : ∀ e ∈ es, e.alert_id ≠ i) :
    has_archive_key (archive_all arch es) i r = has_archive_key arch i r := by
  induction es generalizing arch with
  | nil => rfl
  | cons e0 es ih =>
      rw [show archive_all arch (e0 :: es) = archive_all (archive_insert arch e0) es
        from rfl]
      rw [ih _ (fun e he => h e (List.mem_cons_of_mem _ he))]
      exact has_archive_key_insert arch e0 i r (h e0 (List.mem_cons_self _ _))

/-- Folding a batch through `ON CONFLICT DO NOTHING` does insert an entry
whose key is fresh in the accumulator and unique (by alert id) in the
batch. -/
theorem archive_all_mem_of (arch : List ArchiveEntry) (es : List ArchiveEntry)
    (e : ArchiveEntry) (he : e ∈ es)
    (hfresh : has_archive_key arch e.alert_id e.suppression_reason = false)
    (hdistinct : ∀ e' ∈ es, e'.alert_id = e.alert_id → e' = e) :
    e ∈ archive_all arch es := by
  induction es generalizing arch with
  | nil => exact absurd he (List.not_mem_nil e)
  | cons e0 es ih =>
      by_cases he0 : e0 = e
      · subst he0
        have hins : e0 ∈ archive_insert arch e0 := by
          unfold archive_insert
          rw [if_neg (by rw [hfresh]; simp)]
          exact List.mem_append_right _ (List.mem_cons_self _ _)
        exact mem_archive_all_of_mem _ es e0 hins
      · have hmem : e ∈ es := by
          rcases List.mem_cons.mp he with h | h
          · exact absurd h.symm he0
          · exact h
        have hne : e0.alert_id ≠ e.alert_id := by
          intro hid
          exact he0 (hdistinct e0 (List.mem_cons_self _ _) hid)
        refine ih (archive_insert arch e0) hmem ?_ ?_
        · rw [has_archive_key_insert arch e0 _ _ hne]
          exact hfresh
        · exact fun e' he' => hdistinct e' (List.mem_cons_of_mem _ he')

/-- Claim C10: archive-before-delete.  Starting from a state whose archive
holds no entry for the alert, every alert removed by either cleanup pass
leaves behind an `alerts_suppressed_archive` row carrying its id, the
suppression reason of the pass that removed it, and the complete original
alert row, all within the same run. -/
theorem C10_archive_before_delete (db : AlertDB)
    (hnd : (alert_ids db).Nodup) (a : Alert) (ha : a ∈ db.alerts)
    (hgone : a ∉ (purge_settlement_noise_alerts db).alerts)
    (hfresh : ∀ e ∈ db.archive, e.alert_id ≠ a.alert_id) :
    ∃ e ∈ (purge_settlement_noise_alerts db).archive,
      e.alert_id = a.alert_id ∧ e.alert_row = a ∧
      e.suppression_reason =
        (if expired_or_resolved db a then "expired_or_resolved_at_alert_time"
         else "mirror_yes_no_duplicates") := by
  cases hmark : expired_or_resolved db a with
  | true =>
      have hadels : a ∈ db.alerts.filter (fun x => expired_or_resolved db x) :=
        List.mem_filter.mpr ⟨ha, hmark⟩
      have hentry : (⟨a.alert_id, "expired_or_resolved_at_alert_time", a⟩ :
          ArchiveEntry) ∈
          (db.alerts.filter (fun x => expired_or_resolved db x)).map
            (fun x => (⟨x.alert_id, "expired_or_resolved_at_alert_time", x⟩ :
              ArchiveEntry)) :=
        List.mem_map_of_mem _ hadels
      have hY : (⟨a.alert_id, "expired_or_resolved_at_alert_time", a⟩ :
          ArchiveEntry) ∈ (settlement_pass db).archive := by
        apply archive_all_mem_of _ _ _ hentry
        · exact has_archive_key_false_of_no_id _ _ _ hfresh
        · intro e' he' hid
          obtain ⟨x, hx, hxe⟩ := List.mem_map.mp he'
          have hxid : x.alert_id = a.alert_id := by rw [← hxe] at hid; exact hid
          have hxa : x = a :=
            alert_eq_of_id_eq db hnd x a (List.mem_filter.mp hx).1 ha hxid
          rw [← hxe, hxa]
      refine ⟨⟨a.alert_id, "expired_or_resolved_at_alert_time", a⟩, ?_, rfl, rfl, ?_⟩
      · exact mem_archive_all_of_mem _ _ _ hY
      · simp
  | false =>
      have haY : a ∈ (settlement_pass db).alerts :=
        settlement_pass_mem_of_not_marked db hnd a ha hmark
      have hdel : (mirror_del_ids (settlement_pass db)).contains a.alert_id
          = true := by
        cases hc : (mirror_del_ids (settlement_pass db)).contains a.alert_id with
        | true => rfl
        | false =>
            exact absurd ((mem_mirror_pass (settlement_pass db) a).mpr ⟨haY, hc⟩)
              hgone
      have hadels : a ∈ (settlement_pass db).alerts.filter
          (fun x => (mirror_del_ids (settlement_pass db)).contains x.alert_id) :=
        List.mem_filter.mpr ⟨haY, hdel⟩
      have hentry : (⟨a.alert_id, "mirror_yes_no_duplicates", a⟩ :
          ArchiveEntry) ∈
          ((settlement_pass db).alerts.filter
            (fun x => (mirror_del_ids (settlement_pass db)).contains x.alert_id)).map
            (fun x => (⟨x.alert_id, "mirror_yes_no_duplicates", x⟩ :
              ArchiveEntry)) :=
        List.mem_map_of_mem _ hadels
      have hfreshY : has_archive_key (settlement_pass db).archive a.alert_id
          "mirror_yes_no_duplicates" = false := by
        show has_archive_key (archive_all db.archive _) _ _ = false
        rw [has_archive_key_archive_all]
        · exact has_archive_key_false_of_no_id _ _ _ hfresh
        · intro e he
          obtain ⟨x, hx, hxe⟩ := List.mem_map.mp he
          have hxid : e.alert_id = x.alert_id := by rw [← hxe]
          rw [hxid]
          intro hxa
          have : x = a := alert_eq_of_id_eq db hnd x a
            (List.mem_filter.mp hx).1 ha hxa
          subst this
          have : expired_or_resolved db x = true := (List.mem_filter.mp hx).2
          rw [hmark] at this
          exact Bool.false_ne_true this
      refine ⟨⟨a.alert_id, "mirror_yes_no_duplicates", a⟩, ?_, rfl, rfl, ?_⟩
      · apply archive_all_mem_of _ _ _ hentry hfreshY
        intro e' he' hid
        obtain ⟨x, hx, hxe⟩ := List.mem_map.mp he'
        have hxid : x.alert_id = a.alert_id := by rw [← hxe] at hid; exact hid
        have hxdb : x ∈ db.alerts :=
          (List.mem_filter.mp ((List.mem_filter.mp hx).1 :
            x ∈ (settlement_pass db).alerts)).1
        have hxa : x = a := alert_eq_of_id_eq db hnd x a hxdb ha hxid
        rw [← hxe, hxa]
      · simp

/-- A database whose only alert is settlement noise, for the C10 witness. -/
def archDB : AlertDB :=
  ⟨[⟨1, 1, 300, 5, some "price_move", 150⟩], [⟨1, 1, "YES"⟩],
    [⟨1, some "active", some 100, none⟩], []⟩

/-- Witness for C10 at a concrete input: the deleted alert of `archDB` has
an archived copy with the settlement-noise reason. -/
theorem C10_archive_before_delete_witness :
    ∃ e ∈ (purge_settlement_noise_alerts archDB).archive,
      e.alert_id = (⟨1, 1, 300, 5, some "price_move", 150⟩ : Alert).alert_id ∧
      e.alert_row = (⟨1, 1, 300, 5, some "price_move", 150⟩ : Alert) ∧
      e.suppression_reason =
        (if expired_or_resolved archDB (⟨1, 1, 300, 5, some "price_move", 150⟩ : Alert)
         then "expired_or_resolved_at_alert_time"
         else "mirror_yes_no_duplicates") :=
  C10_archive_before_delete archDB (by decide)
    (⟨1, 1, 300, 5, some "price_move", 150⟩ : Alert) (by decide) (by decide)
    (by decide)

/-! ## WebSocket connection manager fallback state machine -/

/-- The connection modes of the manager
(`Literal["wss", "polling", "fallback"]`). -/
inductive CMode
  | wss
  | polling
  | fallback
deriving DecidableEq

/-- The state `ConnectionManager` keeps for failure handling. -/
structure ConnectionManager where
  mode : CMode
  consecutive_failures : ℕ
deriving DecidableEq

/-- `wss_max_reconnect_attempts` (settings default: 10). -/
def wss_max_reconnect_attempts : ℕ := 10

/-- `min(2 ** consecutive_failures, 60)`: the backoff delay computed after
the failure counter has been incremented. -/
def backoff_delay (failures : ℕ) : ℕ := min (2 ^ failures) 60

/-- The visible effect of `on_disconnect`: either the manager fell back to
polling, or it slept for the backoff delay and reconnected. -/
inductive DisconnectStep
  | fallbackPolling
  | reconnectAfter (delay : ℕ)
deriving DecidableEq

/-- `on_disconnect`: increment the failure counter; at or past the maximum
switch to fallback polling, otherwise back off exponentially (capped at
60 s) and reconnect. -/
def on_disconnect (cm : ConnectionManager) : ConnectionManager × DisconnectStep :=
  let f := cm.consecutive_failures + 1
  if wss_max_reconnect_attempts ≤ f then
    ({ cm with mode := CMode.fallback, consecutive_failures := f },
      DisconnectStep.fallbackPolling)
  else
    ({ cm with consecutive_failures := f },
      DisconnectStep.reconnectAfter (backoff_delay f))

/-- `on_successful_message`: reset the failure counter; if the manager was
in fallback mode, switch back to streaming. -/
def on_successful_message (cm : ConnectionManager) : ConnectionManager :=
  let cm' := { cm with consecutive_failures := 0 }
  if cm'.mode = CMode.fallback then { cm' with mode := CMode.wss } else cm'

/-- The manager state after `k` consecutive disconnects. -/
def iterate_disconnect : ℕ → ConnectionManager → ConnectionManager
  | 0, cm => cm
  | k + 1, cm => iterate_disconnect k (on_disconnect cm).1

/-- The initial manager state: streaming, no failures. -/
def initialManager : ConnectionManager := ⟨CMode.wss, 0⟩

theorem iterate_disconnect_succ (k : ℕ) (cm : ConnectionManager) :
    iterate_disconnect (k + 1) cm =
      (on_disconnect (iterate_disconnect k cm)).1 := by
  induction k generalizing cm with
  | zero => rfl
  | succ j ih => exact ih (on_disconnect cm).1

/-- Claim C9: each failure below the maximum doubles the backoff delay up
to the 60-second cap; after 10 consecutive failures from the initial state
the mode is the polling fallback (and any increment reaching the maximum
falls back); the first successful message resets the failure counter to
zero and, when the manager is in fallback mode, returns it to streaming
(and otherwise leaves the mode unchanged). -/
theorem C9_connection_fallback_state_machine :
    (∀ cm : ConnectionManager, cm.consecutive_failures + 1 <
        wss_max_reconnect_attempts →
      on_disconnect cm =
        ({ cm with consecutive_failures := cm.consecutive_failures + 1 },
          DisconnectStep.reconnectAfter
            (backoff_delay (cm.consecutive_failures + 1)))) ∧
    (∀ f : ℕ, backoff_delay (f + 1) = min (2 * backoff_delay f) 60) ∧
    (∀ cm : ConnectionManager, wss_max_reconnect_attempts ≤
        cm.consecutive_failures + 1 →
      (on_disconnect cm).1.mode = CMode.fallback ∧
        (on_disconnect cm).2 = DisconnectStep.fallbackPolling) ∧
    (∀ k : ℕ, k < wss_max_reconnect_attempts →
      iterate_disconnect k initialManager = ⟨CMode.wss, k⟩) ∧
    (iterate_disconnect wss_max_reconnect_attempts initialManager =
      ⟨CMode.fallback, wss_max_reconnect_attempts⟩) ∧
    (∀ cm : ConnectionManager,
      (on_successful_message cm).consecutive_failures = 0 ∧
      (cm.mode = CMode.fallback → (on_successful_message cm).mode = CMode.wss) ∧
      (cm.mode ≠ CMode.fallback → (on_successful_message cm).mode = cm.mode)) := by
  refine ⟨?_, ?_, ?_, ?_, ?_, ?_⟩
  · intro cm h
    unfold on_disconnect
    rw [if_neg (by omega)]
  · intro f
    unfold backoff_delay
    rw [pow_succ]
    omega
  · intro cm h
    unfold on_disconnect
    rw [if_pos h]
    exact ⟨rfl, rfl⟩
  · intro k hk
    induction k with
    | zero => rfl
    | succ k ih =>
        have hk' : k < wss_max_reconnect_attempts := Nat.lt_of_succ_lt hk
        rw [iterate_disconnect_succ, ih hk']
        unfold on_disconnect
        rw [if_neg (by
          show ¬(wss_max_reconnect_attempts ≤ k + 1)
          unfold wss_max_reconnect_attempts at hk ⊢
          omega)]
  · decide
  · intro cm
    unfold on_successful_message
    refine ⟨?_, ?_, ?_⟩
    · by_cases h : cm.mode = CMode.fallback <;> simp [h]
    · intro h
      simp [h]
    · intro h
      simp [h]

/-- Witness for C9 at concrete inputs: the first backoff delay, the
transition to fallback on the tenth failure, and recovery on a successful
message. -/
theorem C9_connection_fallback_state_machine_witness :
    on_disconnect ⟨CMode.wss, 0⟩ =
      (⟨CMode.wss, 1⟩, DisconnectStep.reconnectAfter (backoff_delay 1)) ∧
    (on_disconnect ⟨CMode.wss, 9⟩).1.mode = CMode.fallback ∧
    (on_successful_message ⟨CMode.fallback, 3⟩).consecutive_failures = 0 ∧
    (on_successful_message ⟨CMode.fallback, 3⟩).mode = CMode.wss := by
  obtain ⟨h1, h2, h3, h4, h5, h6⟩ := C9_connection_fallback_state_machine
  refine ⟨?_, ?_, ?_, ?_⟩
  · exact h1 ⟨CMode.wss, 0⟩ (by decide)
  · exact (h3 ⟨CMode.wss, 9⟩ (by decide)).1
  · exact (h6 ⟨CMode.fallback, 3⟩).1
  · exact (h6 ⟨CMode.fallback, 3⟩).2.1 rfl

/-! ## Arbitrage opportunities (migration 017 schema, README) -/

/-- One row of `arbitrage_opportunities` (the columns its CHECK constraints
read). -/
structure ArbitrageOpportunity where
  arbitrage_type : String
  polymarket_yes_price : ℚ
  polymarket_no_price : ℚ
  kalshi_yes_price : ℚ
  kalshi_no_price : ℚ
  total_cost : ℚ
  profit_margin : ℚ
  profit_percentage : ℚ
deriving DecidableEq

/-- The CHECK constraints of the `arbitrage_opportunities` table: the type
is `'YES_NO'` or `'NO_YES'`, every price lies in `[0, 1]`, and
`chk_valid_arbitrage`: `total_cost < 1 AND profit_margin > 0`.  A row can
be persisted exactly when this predicate holds. -/
def arbitrage_row_checks (r : ArbitrageOpportunity) : Bool :=
  (r.arbitrage_type == "YES_NO" || r.arbitrage_type == "NO_YES") &&
  (decide (0 ≤ r.polymarket_yes_price) && decide (r.polymarket_yes_price ≤ 1)) &&
  (decide (0 ≤ r.polymarket_no_price) && decide (r.polymarket_no_price ≤ 1)) &&
  (decide (0 ≤ r.kalshi_yes_price) && decide (r.kalshi_yes_price ≤ 1)) &&
  (decide (0 ≤ r.kalshi_no_price) && decide (r.kalshi_no_price ≤ 1)) &&
  (decide (r.total_cost < 1) && decide (0 < r.profit_margin))

/-- Modelled from the spec: the cost of the hedging trade,
`total_cost = priceA_side + priceB_side`, for the `YES_NO` shape
(buy YES on polymarket + NO on the other venue) or its `NO_YES` mirror. -/
def arb_total_cost (atype : String) (pm_yes pm_no k_yes k_no : ℚ) : ℚ :=
  if atype == "YES_NO" then pm_yes + k_no else pm_no + k_yes

/-- Modelled from the spec: the arbitrage matcher itself (the code that
computes and inserts `arbitrage_opportunities` rows) is not under `src/`;
only its schema and checklists are.  Per the spec, an opportunity exists
only when `total_cost < 1`, giving `profit_margin = 1 - total_cost` and
`profit_percentage = profit_margin / total_cost * 100`. -/
def detect_arbitrage (atype : String)
    (pm_yes pm_no k_yes k_no : ℚ) : Option ArbitrageOpportunity :=
  if arb_total_cost atype pm_yes pm_no k_yes k_no < 1 then
    some ⟨atype, pm_yes, pm_no, k_yes, k_no,
      arb_total_cost atype pm_yes pm_no k_yes k_no,
      1 - arb_total_cost atype pm_yes pm_no k_yes k_no,
      (1 - arb_total_cost atype pm_yes pm_no k_yes k_no) /
        arb_total_cost atype pm_yes pm_no k_yes k_no * 100⟩
  else none

/-- A row that passes every CHECK constraint although its `profit_margin`
is not `1 - total_cost`. -/
def skewArbRow : ArbitrageOpportunity :=
  ⟨"YES_NO", mkRat 1 4, mkRat 3 4, mkRat 1 4, mkRat 1 4, mkRat 1 2,
    mkRat 3 10, 60⟩

/-- Counterexample to claim C4 as stated: `skewArbRow` can be persisted
(it satisfies every CHECK constraint of the table) although its
`profit_margin` differs from `1 - total_cost`: the persistence layer does
not enforce the exact equality. -/
theorem C4_arbitrage_invariant_counterexample :
    arbitrage_row_checks skewArbRow = true ∧
    skewArbRow.profit_margin ≠ 1 - skewArbRow.total_cost := by
  constructor
  · decide
  · show (mkRat 3 10 : ℚ) ≠ 1 - mkRat 1 2
    norm_num [Rat.mkRat_eq_div]

/-- Claim C4 (amended): every row that can be persisted in
`arbitrage_opportunities` satisfies `total_cost < 1` and
`profit_margin > 0` (the `chk_valid_arbitrage` constraint); the exact
equality `profit_margin = 1 - total_cost` holds for every row produced by
the (spec-modelled) arbitrage matcher, but is not itself enforced at
persistence. -/
theorem C4_arbitrage_invariant_amended :
    (∀ r : ArbitrageOpportunity, arbitrage_row_checks r = true →
      r.total_cost < 1 ∧ 0 < r.profit_margin) ∧
    (∀ atype : String, ∀ pm_yes pm_no k_yes k_no : ℚ,
      ∀ r : ArbitrageOpportunity,
      detect_arbitrage atype pm_yes pm_no k_yes k_no = some r →
      r.profit_margin = 1 - r.total_cost ∧ r.total_cost < 1 ∧
        0 < r.profit_margin) := by
  constructor
  · intro r h
    unfold arbitrage_row_checks at h
    simp only [Bool.and_eq_true, decide_eq_true_eq] at h
    exact ⟨h.2.1, h.2.2⟩
  · intro atype pm_yes pm_no k_yes k_no r h
    unfold detect_arbitrage at h
    split at h
    · rename_i hcost
      have hr := Option.some_inj.mp h
      subst hr
      refine ⟨rfl, hcost, ?_⟩
      show 0 < 1 - arb_total_cost atype pm_yes pm_no k_yes k_no
      linarith
    · exact absurd h (by simp)

/-- The row the spec-modelled matcher produces on the spec's example
`0.40 + 0.55 = 0.95`. -/
def specArbRow : ArbitrageOpportunity :=
  ⟨"YES_NO", mkRat 2 5, mkRat 3 5, mkRat 9 20, mkRat 11 20, mkRat 19 20,
    mkRat 1 20, mkRat 1 20 / mkRat 19 20 * 100⟩

/-- Witness for the amended C4 at concrete inputs: a persistable row, and
the spec's example detection `0.40 + 0.55 = 0.95`. -/
theorem C4_arbitrage_invariant_amended_witness :
    (skewArbRow.total_cost < 1 ∧ 0 < skewArbRow.profit_margin) ∧
    (specArbRow.profit_margin = 1 - specArbRow.total_cost ∧
      specArbRow.total_cost < 1 ∧ 0 < specArbRow.profit_margin) :=
  ⟨C4_arbitrage_invariant_amended.1 skewArbRow (by decide),
   C4_arbitrage_invariant_amended.2 "YES_NO" (mkRat 2 5) (mkRat 3 5)
     (mkRat 9 20) (mkRat 11 20) specArbRow (by
       simp only [detect_arbitrage, arb_total_cost, specArbRow]
       norm_num [Rat.mkRat_eq_div])⟩

/-! ## Volume baselines (`volume_averages`) and the spike detector -/

/-- One row of the `volume_hourly` table as the `volume_averages` view
reads it. -/
structure HourlyLedgerRow where
  token_id : ℕ
  bucket_ts : ℤ
  volume_notional : ℚ
  trade_count : ℕ
deriving DecidableEq

/-- One row of `snapshots` (the columns the view reads). -/
structure Snapshot where
  token_id : ℕ
  ts : ℤ
  price : Option ℚ
  volume_24h : Option ℚ
deriving DecidableEq

/-- `DATE_TRUNC('day', ts)` on epoch seconds. -/
def date_trunc_day (ts : ℤ) : ℤ := 86400 * (ts / 86400)

/-- `DATE(ts)` as a day number. -/
def day_of_ts (ts : ℤ) : ℤ := ts / 86400

/-- The view's time filter:
`DATE_TRUNC('day', NOW()) - INTERVAL '14 days' <= ts < DATE_TRUNC('day', NOW())`. -/
def in_baseline_window (now ts : ℤ) : Bool :=
  decide (date_trunc_day now - 14 * 86400 ≤ ts) && decide (ts < date_trunc_day now)

/-- One row of the `trade_daily`/`provider_daily`/`merged_daily` CTEs. -/
structure DailyVolume where
  token_id : ℕ
  day : ℤ
  day_volume : ℚ
deriving DecidableEq

/-- The `trade_daily` CTE: hourly rows of the window, grouped by
`(token_id, DATE(bucket_ts))`, the day volume being `SUM(volume_notional)`. -/
def trade_daily (vh : List HourlyLedgerRow) (now : ℤ) : List DailyVolume :=
  let rows := vh.filter (fun r => in_baseline_window now r.bucket_ts)
  let keys := (rows.map (fun r => (r.token_id, day_of_ts r.bucket_ts))).dedup
  keys.map (fun k =>
    ⟨k.1, k.2, ((rows.filter (fun r =>
        r.token_id == k.1 && day_of_ts r.bucket_ts == k.2)).map
      HourlyLedgerRow.volume_notional).sum⟩)

/-- `DISTINCT ON (token_id, DATE(ts)) ... ORDER BY ts DESC`: the latest
snapshot of a group. -/
def snapshot_latest : List Snapshot → Option Snapshot
  | [] => none
  | x :: xs => some (xs.foldl (fun b s => if b.ts < s.ts then s else b) x)

/-- The `provider_daily` CTE: one positive `volume_24h` reading per
`(token_id, day)`, taken from the latest snapshot of the day. -/
def provider_daily (ss : List Snapshot) (now : ℤ) : List DailyVolume :=
  let rows := ss.filter (fun s => in_baseline_window now s.ts &&
    (match s.volume_24h with
     | some v => decide (0 < v)
     | none => false))
  let keys := (rows.map (fun s => (s.token_id, day_of_ts s.ts))).dedup
  keys.filterMap (fun k =>
    (snapshot_latest (rows.filter (fun s =>
        s.token_id == k.1 && day_of_ts s.ts == k.2))).bind
      (fun s => s.volume_24h.map (fun v => ⟨k.1, k.2, v⟩)))

/-- The `merged_daily` CTE: trade-first daily totals, with provider days
only where no trade day exists. -/
def merged_daily (vh : List HourlyLedgerRow) (ss : List Snapshot)
    (now : ℤ) : List DailyVolume :=
  let td := trade_daily vh now
  let pd := provider_daily ss now
  td ++ pd.filter (fun p =>
    !(td.any (fun t => t.token_id == p.token_id && t.day == p.day)))

/-- One row of the `volume_averages` view.  The embedding keeps the
columns the claims read (`avg_volume_7d`, `sample_count`); the
`stddev/max/min` columns are projections of the same group and `STDDEV`
is irrational in general. -/
structure VolumeAverageRow where
  token_id : ℕ
  avg_volume_7d : ℚ
  sample_count : ℕ
deriving DecidableEq

/-- The `volume_averages` view: merged daily volumes grouped by token,
averaged, with `HAVING COUNT(*) >= 2`. -/
def volume_averages (vh : List HourlyLedgerRow) (ss : List Snapshot)
    (now : ℤ) : List VolumeAverageRow :=
  let md := merged_daily vh ss now
  let toks := (md.map DailyVolume.token_id).dedup
  toks.filterMap (fun tok =>
    let ds := md.filter (fun d => d.token_id == tok)
    if 2 ≤ ds.length then
      some ⟨tok, (ds.map DailyVolume.day_volume).sum / (ds.length : ℚ),
        ds.length⟩
    else none)

/-- Modelled from the spec: the volume spike detector itself is not under
`src/`; per the spec `spike_ratio = current_volume / avg_volume_baseline`
and an instrument with no baseline row (or a non-positive baseline)
produces no spike. -/
def detect_volume_spike (baseline : Option VolumeAverageRow)
    (current_volume : ℚ) : Option ℚ :=
  match baseline with
  | none => none
  | some b =>
      if 0 < b.avg_volume_7d then some (current_volume / b.avg_volume_7d)
      else none

theorem foldl_latest_mem (zs : List Snapshot) : ∀ y : Snapshot,
    zs.foldl (fun b s => if b.ts < s.ts then s else b) y = y ∨
      zs.foldl (fun b s => if b.ts < s.ts then s else b) y ∈ zs := by
  induction zs with
  | nil => exact fun y => Or.inl rfl
  | cons z zs ih =>
      intro y
      have hstep : (z :: zs).foldl (fun b s => if b.ts < s.ts then s else b) y
          = zs.foldl (fun b s => if b.ts < s.ts then s else b)
              (if y.ts < z.ts then z else y) := rfl
      by_cases hyz : y.ts < z.ts
      · rcases ih z with h' | h'
        · refine Or.inr ?_
          rw [hstep, if_pos hyz, h']
          exact List.mem_cons_self _ _
        · refine Or.inr ?_
          rw [hstep, if_pos hyz]
          exact List.mem_cons_of_mem _ h'
      · rcases ih y with h' | h'
        · refine Or.inl ?_
          rw [hstep, if_neg hyz]
          exact h'
        · refine Or.inr ?_
          rw [hstep, if_neg hyz]
          exact List.mem_cons_of_mem _ h'

theorem snapshot_latest_mem (l : List Snapshot) (s : Snapshot)
    (h : snapshot_latest l = some s) : s ∈ l := by
  cases l with
  | nil => exact absurd h (by simp [snapshot_latest])
  | cons x xs =>
      have hfold : xs.foldl (fun b s => if b.ts < s.ts then s else b) x = s :=
        Option.some_inj.mp h
      rcases foldl_latest_mem xs x with h' | h'
      · rw [hfold] at h'
        rw [← h']
        exact List.mem_cons_self _ _
      · rw [hfold] at h'
        exact List.mem_cons_of_mem _ h'

/-- Every `trade_daily` day volume is positive when every hourly row is. -/
theorem trade_daily_pos (vh : List HourlyLedgerRow) (now : ℤ)
    (hpos : ∀ r ∈ vh, 0 < r.volume_notional) :
    ∀ d ∈ trade_daily vh now, 0 < d.day_volume := by
  intro d hd
  obtain ⟨k, hk, hdk⟩ := List.mem_map.mp hd
  obtain ⟨r, hr, hrk⟩ := List.mem_map.mp (List.mem_dedup.mp hk)
  have hrmatch : r ∈ (vh.filter
      (fun r => in_baseline_window now r.bucket_ts)).filter
      (fun r => r.token_id == k.1 && day_of_ts r.bucket_ts == k.2) := by
    rw [List.mem_filter]
    refine ⟨hr, ?_⟩
    rw [← hrk]
    simp
  have hne : ((vh.filter (fun r => in_baseline_window now r.bucket_ts)).filter
      (fun r => r.token_id == k.1 && day_of_ts r.bucket_ts == k.2)).map
        HourlyLedgerRow.volume_notional ≠ [] := by
    intro hnil
    rw [List.map_eq_nil_iff] at hnil
    rw [hnil] at hrmatch
    exact List.not_mem_nil r hrmatch
  have hall : ∀ v ∈ ((vh.filter
      (fun r => in_baseline_window now r.bucket_ts)).filter
      (fun r => r.token_id == k.1 && day_of_ts r.bucket_ts == k.2)).map
        HourlyLedgerRow.volume_notional, 0 < v := by
    intro v hv
    obtain ⟨r', hr', hrv⟩ := List.mem_map.mp hv
    have hr'vh : r' ∈ vh :=
      (List.mem_filter.mp (List.mem_filter.mp hr').1).1
    rw [← hrv]
    exact hpos r' hr'vh
  rw [← hdk]
  exact List.sum_pos _ hall hne

/-- Every `provider_daily` day volume is positive by the `volume_24h > 0`
filter. -/
theorem provider_daily_pos (ss : List Snapshot) (now : ℤ) :
    ∀ d ∈ provider_daily ss now, 0 < d.day_volume := by
  intro d hd
  obtain ⟨k, hk, hdk⟩ := List.mem_filterMap.mp hd
  obtain ⟨s, hs, hsv⟩ := Option.bind_eq_some.mp hdk
  obtain ⟨v, hv, hveq⟩ := Option.map_eq_some'.mp hsv
  have hsmem : s ∈ ss.filter (fun s => in_baseline_window now s.ts &&
      (match s.volume_24h with
       | some v => decide (0 < v)
       | none => false)) :=
    (List.mem_filter.mp (snapshot_latest_mem _ s hs)).1
  have hcond := (List.mem_filter.mp hsmem).2
  rw [Bool.and_eq_true] at hcond
  have hvpos : 0 < v := by
    have h2 := hcond.2
    rw [hv] at h2
    simpa using h2
  have hdv : d.day_volume = v := by rw [← hveq]
  rw [hdv]
  exact hvpos

/-- One accumulator call preserves positivity of the hourly ledger
entries. -/
theorem accumulate_hourly_pos (st : VolumeState) (tok' : ℕ)
    (vol : Option ℚ) (ts : ℤ)
    (hst : ∀ tok b r, st.volume_hourly tok b = some r → 0 < r.volume_notional) :
    ∀ tok b r,
      (accumulate_trade_volume st tok' vol ts).volume_hourly tok b = some r →
        0 < r.volume_notional := by
  intro tok b r h
  cases vol with
  | none => exact hst tok b r h
  | some v =>
      by_cases hv : v ≤ 0
      · have hid : accumulate_trade_volume st tok' (some v) ts = st :=
          C5_nonpositive_volume_noop st tok' (some v) ts
            (fun v' hv' => by rw [← Option.some_inj.mp hv']; exact hv)
        rw [hid] at h
        exact hst tok b r h
      · have hv' : 0 < v := lt_of_not_le hv
        rw [accumulate_pos_def st tok' v ts hv'] at h
        have h' : (if tok = tok' ∧ b = hour_bucket ts then
            some (upsert_hourly v (st.volume_hourly tok b))
          else st.volume_hourly tok b) = some r := h
        clear h
        by_cases hkey : tok = tok' ∧ b = hour_bucket ts
        · rw [if_pos hkey] at h'
          rw [← Option.some_inj.mp h']
          cases hold : st.volume_hourly tok b with
          | none => exact hv'
          | some r0 => exact add_pos (hst tok b r0 hold) hv'
        · rw [if_neg hkey] at h'
          exact hst tok b r h'

/-- Oops-free replay: every hourly ledger row built by the accumulator
from the empty state has strictly positive volume. -/
theorem replay_hourly_pos (calls : List (ℕ × Option ℚ × ℤ)) :
    ∀ tok b r, (replay emptyVolumeState calls).volume_hourly tok b = some r →
      0 < r.volume_notional := by
  have hgen : ∀ (cs : List (ℕ × Option ℚ × ℤ)) (st : VolumeState),
      (∀ tok b r, st.volume_hourly tok b = some r → 0 < r.volume_notional) →
      ∀ tok b r, (replay st cs).volume_hourly tok b = some r →
        0 < r.volume_notional := by
    intro cs
    induction cs with
    | nil => exact fun st hst => hst
    | cons c cs ih =>
        intro st hst
        exact ih (accumulate_trade_volume st c.1 c.2.1 c.2.2)
          (accumulate_hourly_pos st c.1 c.2.1 c.2.2 hst)
  exact hgen calls emptyVolumeState (fun tok b r h => by
    exact absurd h (by simp [emptyVolumeState]))

/-- Claim C8: a volume spike needs a non-null, non-zero baseline.  Every
row of the `volume_averages` view (over an hourly ledger with positive
entries, as the accumulator guarantees) has a strictly positive
`avg_volume_7d` and a `sample_count` of at least two, so the division
`current_volume / avg_volume_baseline` is well-defined; and an instrument
with no baseline row produces no spike. -/
theorem C8_spike_baseline_positive (vh : List HourlyLedgerRow)
    (ss : List Snapshot) (now : ℤ)
    (hpos : ∀ r ∈ vh, 0 < r.volume_notional) :
    (∀ row ∈ volume_averages vh ss now,
      0 < row.avg_volume_7d ∧ 2 ≤ row.sample_count) ∧
    (∀ current : ℚ, detect_volume_spike none current = none) ∧
    (∀ calls : List (ℕ × Option ℚ × ℤ), ∀ tok b r,
      (replay emptyVolumeState calls).volume_hourly tok b = some r →
        0 < r.volume_notional) := by
  refine ⟨?_, fun _ => rfl, fun calls => replay_hourly_pos calls⟩
  intro row hrow
  obtain ⟨tok, htok, hf⟩ := List.mem_filterMap.mp hrow
  by_cases hlen : 2 ≤ ((merged_daily vh ss now).filter
      (fun d => d.token_id == tok)).length
  · rw [if_pos hlen] at hf
    obtain rfl := Option.some_inj.mp hf
    have hmerged : ∀ d ∈ merged_daily vh ss now, 0 < d.day_volume := by
      intro d hd
      rcases List.mem_append.mp hd with hd | hd
      · exact trade_daily_pos vh now hpos d hd
      · exact provider_daily_pos ss now d (List.mem_filter.mp hd).1
    constructor
    · show 0 < (((merged_daily vh ss now).filter
        (fun d => d.token_id == tok)).map DailyVolume.day_volume).sum /
          ((((merged_daily vh ss now).filter
            (fun d => d.token_id == tok)).length : ℕ) : ℚ)
      apply div_pos
      · apply List.sum_pos
        · intro v hv
          obtain ⟨d, hd, hdv⟩ := List.mem_map.mp hv
          rw [← hdv]
          exact hmerged d (List.mem_filter.mp hd).1
        · intro hnil
          rw [List.map_eq_nil_iff] at hnil
          rw [hnil] at hlen
          exact absurd hlen (by simp)
      · have : 0 < ((merged_daily vh ss now).filter
            (fun d => d.token_id == tok)).length := by omega
        exact_mod_cast this
    · exact hlen
  · rw [if_neg hlen] at hf
    exact absurd hf (by simp)

/-- Two positive hourly rows of one token on two days inside the
baseline window. -/
def exHourly : List HourlyLedgerRow :=
  [⟨1, 86400, 5, 1⟩, ⟨1, 172800, 7, 1⟩]

/-- Witness for C8 at a concrete input: two positive trading days, no
snapshots, `NOW()` at day 15. -/
theorem C8_spike_baseline_positive_witness :
    (∀ row ∈ volume_averages exHourly [] 1296000,
      0 < row.avg_volume_7d ∧ 2 ≤ row.sample_count) ∧
    (∀ current : ℚ, detect_volume_spike none current = none) ∧
    (∀ calls : List (ℕ × Option ℚ × ℤ), ∀ tok b r,
      (replay emptyVolumeState calls).volume_hourly tok b = some r →
        0 < r.volume_notional) :=
  C8_spike_baseline_positive exHourly [] 1296000 (by decide)

end PMM
